import Mathlib

/-!
# Verification of the `stty.py` terminal-attribute library

A shallow embedding of `stty.py` (the only component of the repository with
real invariants): the control-character codec `cc_str_to_bytes` /
`cc_bytes_to_str`, the platform attribute tables, and the `Stty` object with
its `__setattr__`, `set`, `get`, `save`, `load`, `fromfd` and `raw`
operations.

Modelling conventions:
* Python `str` is Lean `String` (a list of unicode scalar values).  The
  functions `str.isalpha`, `str.islower`, `str.upper` are modelled by the
  ASCII-only `Char.isAlpha`, `Char.isLower`, `Char.toUpper`; theorems that
  quantify over strings therefore carry an "ASCII input" hypothesis, which is
  the region where the model agrees with Python exactly.
* Python `bytes` is `List Nat` (every element below 256 by provenance).
* Python `int` is `Int`; Python `bool` is a separate constructor, but — as in
  Python, where `bool` is a subclass of `int` — the model lets a bool pass
  every `isinstance(·, int)` check and compare numerically (`False == 0`,
  `True == 1`).
* A raised exception is `Except.error (e, st)` where `st` is the object state
  at the moment of the raise, so that "raises and leaves the state unchanged"
  is a provable statement rather than one true by construction of the type.
* The platform is the one the repository runs on (Linux/glibc, CPython 3.11):
  all `hasattr(termios, ...)` probes in the module are resolved against that
  platform's `termios` module, whose constants are transcribed below.
-/

namespace SttyVerify

/-! ## Python `x & ~m` on nonnegative ints

`x &&& m` has only bits of `x`, so xor-ing it back out clears exactly the
bits of `m`; this form evaluates in the kernel, and is proved equal to
`Nat.ldiff` (bitwise and-not) below. -/

def pyAndNot (x m : Nat) : Nat := x ^^^ (x &&& m)

/-! ## The control-character codec (`cc_str_to_bytes`, `cc_bytes_to_str`)

`termios._POSIX_VDISABLE` is absent from this platform's Python 3.11
`termios` module, so the module-level fallback in `stty.py` applies and the
disabled sentinel is `0x00`. -/

def _POSIX_VDISABLE : Nat := 0x00

/-- `cc_str_to_bytes` from `stty.py`: convert a "control-character string" to
a one-byte `bytes` value, `none` for `return None`.  A length-1 string maps
to its own code point; `"^-"` and `"undef"` map to the disabled sentinel;
`"^?"` maps to DEL; `^X` with `X` a letter or one of `[ \ ] ^ _` maps to
`X & 0x1f`.  (For a single character with code point ≥ 256, Python's
`bytes([ord(s)])` would raise; theorems restrict inputs to ASCII, where the
model is exact.) -/
def cc_str_to_bytes (s : String) : Option (List Nat) :=
  match s.data with
  | [c] => some [c.toNat]
  | _ =>
    if s = "^-" ∨ s = "undef" then
      some [_POSIX_VDISABLE]
    else
      match s.data with
      | [c1, c2] =>
        if c1 = '^' then
          if c2 = '?' then
            some [0x7f]
          else if c2.isAlpha || c2 ∈ ['[', '\\', ']', '^', '_'] then
            some [c2.toNat &&& 0x1f]
          else none
        else none
      | _ => none

/-- `cc_bytes_to_str` from `stty.py`: convert a one-byte `bytes` value to its
control-character string, `none` for `return None`.  The sentinel decodes to
`"undef"`; printable bytes (0x20–0x7e) to the literal character; DEL to
`"^?"`; 0x01–0x1f to `^` followed by the character at `byte + 0x40`
(uppercased if lowercase — dead code, since 0x41–0x5f holds no lowercase
letter, but transcribed faithfully). -/
def cc_bytes_to_str (b : List Nat) : Option String :=
  match b with
  | [byte] =>
    if byte = _POSIX_VDISABLE then
      some "undef"
    else if 0x20 ≤ byte ∧ byte ≤ 0x7e then
      some (String.mk [Char.ofNat byte])
    else if byte = 0x7f then
      some "^?"
    else if 0x01 ≤ byte ∧ byte ≤ 0x1f then
      let c := Char.ofNat (byte + 0x40)
      let c := if c.isLower then c.toUpper else c
      some (String.mk ['^', c])
    else none
  | _ => none

/-! ## C2: which strings encode

The claim restricts the length-1 case to *printable* characters; the source
accepts *any* length-1 string (`if len(s) == 1: return bytes([ord(s)])`, with
no printability check), so e.g. `"\x01"` encodes to `0x01` although the claim
says no value is produced for it. -/

/-- The set of strings the claim (spec §4.1) says are encodable, written from
the claim's words for comparison with the source: a literal single
*printable* character, `^X` with `X` a letter or one of `[ \ ] ^ _`, `"^?"`,
`"^-"`, or `"undef"`. -/
def specEncodableB (s : String) : Bool :=
  match s.data with
  | [c] => decide (0x20 ≤ c.toNat ∧ c.toNat ≤ 0x7e)
  | ['^', c] =>
    decide (s = "^-" ∨ s = "undef" ∨ s = "^?") ||
      (c.isAlpha || decide (c ∈ ['[', '\\', ']', '^', '_']))
  | _ => decide (s = "undef")

/-- The claim's case list amended only where the counterexample forces it:
the length-1 case covers *any* single character, not just printable ones. -/
def claimC2_encode (s : String) : Option (List Nat) :=
  match s.data with
  | [c] => some [c.toNat]
  | _ =>
    if s = "^-" ∨ s = "undef" then some [_POSIX_VDISABLE]
    else if s = "^?" then some [0x7f]
    else
      match s.data with
      | [c1, c2] =>
        if c1 = '^' then
          if c2.isAlpha || c2 ∈ ['[', '\\', ']', '^', '_'] then
            some [c2.toNat &&& 0x1f]
          else none
        else none
      | _ => none

/-! ## Python values

Python `bool` is a subclass of `int`: a bool passes `isinstance(·, int)` and
compares numerically (`False == 0`, `True == 1`), which matters for dict
membership (`False in _baud_d`) and arithmetic comparisons. -/

inductive PyVal where
  | bool (b : Bool)
  | int (n : Int)
  | str (s : String)
  | bts (b : List Nat)
deriving DecidableEq

/-- `isinstance(v, bool)`. -/
def PyVal.isBool : PyVal → Bool
  | .bool _ => true
  | _ => false

/-- `isinstance(v, int)` — true for bools as well, since Python's `bool`
subclasses `int`. -/
def PyVal.isInt : PyVal → Bool
  | .bool _ => true
  | .int _ => true
  | _ => false

def PyVal.isStr : PyVal → Bool
  | .str _ => true
  | _ => false

def PyVal.isBts : PyVal → Bool
  | .bts _ => true
  | _ => false

/-- The numeric value of an int-like Python value (`False == 0`,
`True == 1`); 0 for the non-numeric values, on which it is never used. -/
def PyVal.asInt : PyVal → Int
  | .bool b => if b then 1 else 0
  | .int n => n
  | _ => 0

/-- Python truthiness. -/
def PyVal.truthy : PyVal → Bool
  | .bool b => b
  | .int n => n != 0
  | .str s => !(s = "")
  | .bts b => !(b = [])

/-! ## The platform attribute tables

Transcribed from this platform's (Linux/glibc, CPython 3.11) `termios`
module, resolving every `hasattr(termios, ...)` probe in `stty.py`:
`VERASE2`, `VDSUSP` and `VSTATUS` are absent, everything else listed in the
source is present (including `VSWTCH`, `CIBAUD`, `IMAXBEL`, `IUCLC`,
`XCASE` and all delay masks).  Dict iteration order follows the source's
listing order; nothing below depends on it. -/

def _IFLAG : Nat := 0

def _OFLAG : Nat := 1

def _CFLAG : Nat := 2

def _LFLAG : Nat := 3

def _ISPEED : Nat := 4

def _OSPEED : Nat := 5

/-- `_bool_d`: lowercase mask name ↦ (flag-word index, bit mask). -/
def _bool_d : List (String × Nat × Nat) := [
  ("ignbrk", _IFLAG, 0x1), ("brkint", _IFLAG, 0x2), ("ignpar", _IFLAG, 0x4),
  ("parmrk", _IFLAG, 0x8), ("inpck", _IFLAG, 0x10), ("istrip", _IFLAG, 0x20),
  ("inlcr", _IFLAG, 0x40), ("igncr", _IFLAG, 0x80), ("icrnl", _IFLAG, 0x100),
  ("iuclc", _IFLAG, 0x200), ("ixon", _IFLAG, 0x400), ("ixany", _IFLAG, 0x800),
  ("ixoff", _IFLAG, 0x1000), ("imaxbel", _IFLAG, 0x2000),
  ("opost", _OFLAG, 0x1), ("olcuc", _OFLAG, 0x2), ("onlcr", _OFLAG, 0x4),
  ("ocrnl", _OFLAG, 0x8), ("onocr", _OFLAG, 0x10), ("onlret", _OFLAG, 0x20),
  ("ofill", _OFLAG, 0x40), ("ofdel", _OFLAG, 0x80),
  ("cstopb", _CFLAG, 0x40), ("cread", _CFLAG, 0x80), ("parenb", _CFLAG, 0x100),
  ("parodd", _CFLAG, 0x200), ("hupcl", _CFLAG, 0x400), ("clocal", _CFLAG, 0x800),
  ("cibaud", _CFLAG, 0x100f0000), ("crtscts", _CFLAG, 0x80000000),
  ("isig", _LFLAG, 0x1), ("icanon", _LFLAG, 0x2), ("xcase", _LFLAG, 0x4),
  ("echo", _LFLAG, 0x8), ("echoe", _LFLAG, 0x10), ("echok", _LFLAG, 0x20),
  ("echonl", _LFLAG, 0x40), ("echoctl", _LFLAG, 0x200), ("echoprt", _LFLAG, 0x400),
  ("echoke", _LFLAG, 0x800), ("flusho", _LFLAG, 0x1000), ("noflsh", _LFLAG, 0x80),
  ("tostop", _LFLAG, 0x100), ("pendin", _LFLAG, 0x4000), ("iexten", _LFLAG, 0x8000)]

/-- `_symbol_d`: lowercase mask name ↦ (flag-word index, field mask,
available values as raw ↦ lowercase name; the inverse table is looked up in
the same list by second component). -/
def _symbol_d : List (String × Nat × Nat × List (Nat × String)) := [
  ("csize", _CFLAG, 0x30,
    [(0x0, "cs5"), (0x10, "cs6"), (0x20, "cs7"), (0x30, "cs8")]),
  ("crdly", _OFLAG, 0x600,
    [(0x0, "cr0"), (0x200, "cr1"), (0x400, "cr2"), (0x600, "cr3")]),
  ("nldly", _OFLAG, 0x100, [(0x0, "nl0"), (0x100, "nl1")]),
  ("tabdly", _OFLAG, 0x1800,
    [(0x0, "tab0"), (0x800, "tab1"), (0x1000, "tab2"), (0x1800, "tab3")]),
  ("bsdly", _OFLAG, 0x2000, [(0x0, "bs0"), (0x2000, "bs1")]),
  ("ffdly", _OFLAG, 0x8000, [(0x0, "ff0"), (0x8000, "ff1")]),
  ("vtdly", _OFLAG, 0x4000, [(0x0, "vt0"), (0x4000, "vt1")])]

/-- `_baud_d`: nominal rate ↦ raw speed code (`B<n>` constants); all rates in
`_r` exist on this platform.  Rate keys are `Int` because they are compared
against arbitrary Python ints (and bools). -/
def _baud_d : List (Int × Nat) := [
  (0, 0), (50, 1), (75, 2), (110, 3), (134, 4), (150, 5), (200, 6), (300, 7),
  (600, 8), (1200, 9), (1800, 10), (2400, 11), (4800, 12), (9600, 13),
  (19200, 14), (38400, 15), (57600, 4097), (115200, 4098), (230400, 4099),
  (460800, 4100), (500000, 4101), (576000, 4102), (921600, 4103),
  (1000000, 4104), (1152000, 4105), (1500000, 4106), (2000000, 4107),
  (2500000, 4108), (3000000, 4109), (3500000, 4110), (4000000, 4111)]

/-- `_cc_d`: control-character attribute name ↦ index into the `cc` list.
`VERASE2`, `VDSUSP`, `VSTATUS` are absent on this platform; `VSWTCH` is
present (index 7). -/
def _cc_d : List (String × Nat) := [
  ("eof", 4), ("eol", 11), ("eol2", 16), ("erase", 2), ("werase", 14),
  ("kill", 3), ("reprint", 12), ("intr", 0), ("quit", 1), ("susp", 10),
  ("start", 8), ("stop", 9), ("lnext", 15), ("discard", 13), ("swtch", 7)]

/-- `_noncanon_d`: `min` ↦ `VMIN` (6), `time` ↦ `VTIME` (5). -/
def _noncanon_d : List (String × Nat) := [("min", 6), ("time", 5)]

/-- `_speed_d`: termios list index of each speed slot. -/
def _speed_d : List (String × Nat) := [("ispeed", _ISPEED), ("ospeed", _OSPEED)]

/-- `_winsz_d`: winsize tuple index of each dimension (`_HAVE_WINSZ` is true
on this platform). -/
def _winsz_d : List (String × Nat) := [("rows", 0), ("cols", 1)]

def _default_winsize : List PyVal := [.int 24, .int 80]

/-- `_available`: every attribute name available on the platform. -/
def _available : List String :=
  _bool_d.map Prod.fst ++ _symbol_d.map Prod.fst ++ _speed_d.map Prod.fst ++
    _cc_d.map Prod.fst ++ _noncanon_d.map Prod.fst ++ _winsz_d.map Prod.fst

/-- The iflag boolean attribute names
(`_available_dict["boolean"]["iflag"]`). -/
def _iflag_bool_names : List String :=
  ["ignbrk", "brkint", "ignpar", "parmrk", "inpck", "istrip", "inlcr",
   "igncr", "icrnl", "iuclc", "ixon", "ixany", "ixoff", "imaxbel"]

/-- The lflag boolean attribute names
(`_available_dict["boolean"]["lflag"]`). -/
def _lflag_bool_names : List String :=
  ["isig", "icanon", "xcase", "echo", "echoe", "echok", "echonl", "echoctl",
   "echoprt", "echoke", "flusho", "noflsh", "tostop", "pendin", "iexten"]

/-! ## Association-list primitives (Python dict / object `__dict__`) -/

/-- Dict lookup (first matching key). -/
def lookupA {β : Type} (l : List (String × β)) (k : String) : Option β :=
  match l with
  | [] => none
  | (k', v) :: rest => if k' = k then some v else lookupA rest k

/-- Dict entry assignment: replace in place, or append a new entry (Python
dicts keep the original insertion position on overwrite). -/
def updateAssoc (l : List (String × PyVal)) (k : String) (v : PyVal) :
    List (String × PyVal) :=
  match l with
  | [] => [(k, v)]
  | (k', v') :: rest =>
    if k' = k then (k, v) :: rest else (k', v') :: updateAssoc rest k v

/-- `_baud_d[value]` / `value in _baud_d`: numeric key lookup. -/
def lookupBaud (v : Int) : Option Nat :=
  (_baud_d.find? (fun p => p.1 = v)).map Prod.snd

/-- `_baud_d_inverse[code]`: raw speed code back to the nominal rate. -/
def lookupBaudInv (code : Nat) : Option Int :=
  (_baud_d.find? (fun p => p.2 = code)).map Prod.fst

/-- Symbol table lookup by raw value (`value in x[2]`, `x[2][value]`);
returns the matching (raw, name) pair. -/
def lookupSymNum (avail : List (Nat × String)) (v : Int) : Option (Nat × String) :=
  avail.find? (fun p => (p.1 : Int) = v)

/-- Symbol table lookup by name (`value in x[3]`, `x[3][value]`). -/
def lookupSymStr (avail : List (Nat × String)) (s : String) : Option Nat :=
  (avail.find? (fun p => p.2 = s)).map Prod.fst

/-- Python list item assignment `l[i] = v`; `none` models the `IndexError`
raised when `i` is out of range. -/
def listStore {α : Type} (l : List α) (i : Nat) (v : α) : Option (List α) :=
  if i < l.length then some (l.set i v) else none

/-! ## The `Stty` object and its `__setattr__`

The object state is the instance `__dict__`: the raw buffers `_termios` and
`_winsize` (set through `object.__setattr__`, absent on a freshly created
object, hence `Option`), and the cached symbolic attributes.  The `cc` entry
of the termios list holds `bytes` values — or plain ints in the `min`/`time`
slots — so its elements are `PyVal`; likewise the winsize list stores the
exact objects assigned into it.  Raised exceptions carry the object state at
the moment of the raise. -/

structure TermiosData where
  iflag : Nat
  oflag : Nat
  cflag : Nat
  lflag : Nat
  ispeed : Nat
  ospeed : Nat
  cc : List PyVal
deriving DecidableEq

/-- `self._termios[i]` for the four flag words (indices 0–3). -/
def TermiosData.getWord (t : TermiosData) (i : Nat) : Nat :=
  if i = 0 then t.iflag
  else if i = 1 then t.oflag
  else if i = 2 then t.cflag
  else t.lflag

def TermiosData.setWord (t : TermiosData) (i : Nat) (w : Nat) : TermiosData :=
  if i = 0 then { t with iflag := w }
  else if i = 1 then { t with oflag := w }
  else if i = 2 then { t with cflag := w }
  else { t with lflag := w }

/-- `self._termios[i]` for the two speed slots (indices 4–5). -/
def TermiosData.getSpeed (t : TermiosData) (i : Nat) : Nat :=
  if i = 4 then t.ispeed else t.ospeed

def TermiosData.setSpeed (t : TermiosData) (i : Nat) (w : Nat) : TermiosData :=
  if i = 4 then { t with ispeed := w } else { t with ospeed := w }

structure SttyObj where
  _termios : Option TermiosData
  _winsize : Option (List PyVal)
  cache : List (String × PyVal)
deriving DecidableEq

/-- A freshly constructed object: empty instance `__dict__`. -/
def emptyStty : SttyObj := ⟨none, none, []⟩

inductive PyErr where
  | typeError (msg : String)
  | valueError (msg : String)
  | attributeError (msg : String)
  | keyError
  | indexError
deriving DecidableEq

/-- The result of a mutating call: either the new state, or the raised
exception together with the state at the moment of the raise. -/
abbrev PyResult := Except (PyErr × SttyObj) SttyObj

def errImmutable : PyErr := .attributeError "attribute must not be directly modified"

def errNoTermios : PyErr := .attributeError "object has no attribute _termios"

def errNoWinsize : PyErr := .attributeError "object has no attribute _winsize"

def errUnsupportedAttr : PyErr := .attributeError "attribute unsupported on platform"

def errUnsupportedValue : PyErr := .valueError "unsupported value for attribute"

def errLenOfNone : PyErr := .typeError "object of type NoneType has no len"

/-- The boolean branch of `Stty.__setattr__`: type check, then set or clear
the bit in the flag word and cache the value. -/
def setattrBool (self : SttyObj) (name : String) (value : PyVal)
    (x : Nat × Nat) : PyResult :=
  if !value.isBool then
    .error (.typeError "value of attribute must have type bool", self)
  else
    match self._termios with
    | none => .error (errNoTermios, self)
    | some t =>
      let t' :=
        if value.truthy then t.setWord x.1 (t.getWord x.1 ||| x.2)
        else t.setWord x.1 (pyAndNot (t.getWord x.1) x.2)
      .ok { self with
            _termios := some t'
            cache := updateAssoc self.cache name value }

/-- The store step of the symbolic-mask branch: clear the field, OR in the
raw value, cache the canonical name. -/
def symbolStore (self : SttyObj) (name : String) (x : Nat × Nat × List (Nat × String))
    (vi : Nat) (vs : String) : PyResult :=
  match self._termios with
  | none => .error (errNoTermios, self)
  | some t =>
    let t1 := t.setWord x.1 (pyAndNot (t.getWord x.1) x.2.1)
    let t2 := t1.setWord x.1 (t1.getWord x.1 ||| vi)
    .ok { self with
          _termios := some t2
          cache := updateAssoc self.cache name (.str vs) }

/-- The symbolic-mask branch of `Stty.__setattr__`: validate the int or str
value against the mask's table, clear the field, OR in the raw value, and
cache the canonical name string. -/
def setattrSymbol (self : SttyObj) (name : String) (value : PyVal)
    (x : Nat × Nat × List (Nat × String)) : PyResult :=
  match value with
  | .bts _ =>
    .error (.typeError "value of attribute must have type int or str", self)
  | .str sv =>
    match lookupSymStr x.2.2 sv with
    | none => .error (errUnsupportedValue, self)
    | some vi => symbolStore self name x vi sv
  | v =>
    match lookupSymNum x.2.2 v.asInt with
    | none => .error (errUnsupportedValue, self)
    | some p => symbolStore self name x p.1 p.2

/-- The speed branch of `Stty.__setattr__`: the value must be an int (a bool
passes, being an int) naming an enumerated rate; the raw speed code is
stored and the given value object is cached. -/
def setattrSpeed (self : SttyObj) (name : String) (value : PyVal)
    (slot : Nat) : PyResult :=
  if !value.isInt then
    .error (.typeError "value of attribute must have type int", self)
  else
    match lookupBaud value.asInt with
    | none => .error (errUnsupportedValue, self)
    | some code =>
      match self._termios with
      | none => .error (errNoTermios, self)
      | some t =>
        .ok { self with
              _termios := some (t.setSpeed slot code)
              cache := updateAssoc self.cache name value }

/-- The store step of the control-character branch: the encoded byte goes
into the slot, the decoded canonical string into the cache. -/
def ccStore (self : SttyObj) (name : String) (idx : Nat) (vb : List Nat)
    (vs : String) : PyResult :=
  match self._termios with
  | none => .error (errNoTermios, self)
  | some t =>
    match listStore t.cc idx (.bts vb) with
    | none => .error (.indexError, self)
    | some cc' =>
      .ok { self with
            _termios := some { t with cc := cc' }
            cache := updateAssoc self.cache name (.str vs) }

/-- The control-character branch of `Stty.__setattr__`.  For a string value
the code computes `cc_bytes_to_str(cc_str_to_bytes(value))`; when
`cc_str_to_bytes` returns `None`, the `len(b)` inside `cc_bytes_to_str`
raises `TypeError` — the branch's own `ValueError` check is unreachable for
string input. -/
def setattrCC (self : SttyObj) (name : String) (value : PyVal)
    (idx : Nat) : PyResult :=
  match value with
  | .str sv =>
    match cc_str_to_bytes sv with
    | none => .error (errLenOfNone, self)
    | some vb =>
      match cc_bytes_to_str vb with
      | none => .error (errUnsupportedValue, self)
      | some vs => ccStore self name idx vb vs
  | .bts vb =>
    match cc_bytes_to_str vb with
    | none => .error (errUnsupportedValue, self)
    | some vs => ccStore self name idx vb vs
  | _ =>
    .error (.typeError "value of attribute must have type str or bytes", self)

/-- The store step of the `min`/`time` branch: the given value object goes
into the slot, the int form into the cache. -/
def noncanonStore (self : SttyObj) (name : String) (idx : Nat) (value : PyVal)
    (cached : PyVal) : PyResult :=
  match self._termios with
  | none => .error (errNoTermios, self)
  | some t =>
    match listStore t.cc idx value with
    | none => .error (.indexError, self)
    | some cc' =>
      .ok { self with
            _termios := some { t with cc := cc' }
            cache := updateAssoc self.cache name cached }

/-- The `min`/`time` branch of `Stty.__setattr__`: a nonnegative int (bools
pass the `isinstance(value, int)` check) or a single byte; the value object
itself is stored in the control-character slot and the int form is cached
(for the int path, `value_as_int = value` — the original object). -/
def setattrNoncanon (self : SttyObj) (name : String) (value : PyVal)
    (idx : Nat) : PyResult :=
  match value with
  | .bts vb =>
    if vb.length ≠ 1 then
      .error (.valueError "expected 1 byte long value for attribute", self)
    else noncanonStore self name idx value (.int (vb.headD 0 : Nat))
  | v =>
    if !v.isInt then
      .error (.typeError "value of attribute must have type int or bytes", self)
    else if v.asInt < 0 then
      .error (.valueError "expected nonnegative value for attribute", self)
    else noncanonStore self name idx value v

/-- The winsize branch of `Stty.__setattr__`: a nonnegative int (bools
pass), stored as-is into the winsize list and cached. -/
def setattrWinsz (self : SttyObj) (name : String) (value : PyVal)
    (idx : Nat) : PyResult :=
  if !value.isInt then
    .error (.typeError "value of attribute must have type int", self)
  else if value.asInt < 0 then
    .error (.valueError "expected nonnegative value for attribute", self)
  else
    match self._winsize with
    | none => .error (errNoWinsize, self)
    | some ws =>
      match listStore ws idx value with
      | none => .error (.indexError, self)
      | some ws' =>
        .ok { self with
              _winsize := some ws'
              cache := updateAssoc self.cache name value }

/-- `Stty.__setattr__`: dispatch on the attribute tables in source order;
a name in none of them is unsupported on the platform. -/
def SttyObj.setattr (self : SttyObj) (name : String) (value : PyVal) :
    PyResult :=
  if name = "_termios" ∨ name = "_winsize" then
    .error (errImmutable, self)
  else
    match lookupA _bool_d name with
    | some x => setattrBool self name value x
    | none =>
      match lookupA _symbol_d name with
      | some x => setattrSymbol self name value x
      | none =>
        match lookupA _speed_d name with
        | some slot => setattrSpeed self name value slot
        | none =>
          match lookupA _cc_d name with
          | some idx => setattrCC self name value idx
          | none =>
            match lookupA _noncanon_d name with
            | some idx => setattrNoncanon self name value idx
            | none =>
              match lookupA _winsz_d name with
              | some idx => setattrWinsz self name value idx
              | none => .error (errUnsupportedAttr, self)

/-! ## `Stty.set`, attribute reads, `get`/`save`, `load`, `fromfd`, `raw` -/

/-- The loop body of `Stty.set`: apply each pair via `__setattr__`. -/
def setManyGo : SttyObj → List (String × PyVal) → PyResult
  | st, [] => .ok st
  | st, (k, v) :: rest =>
    match st.setattr k v with
    | .error e => .error e
    | .ok st' => setManyGo st' rest

/-- `Stty.set(**opts)`: reject the whole call if any key is outside
`_available`, before mutating anything; otherwise apply each pair. -/
def SttyObj.set (self : SttyObj) (opts : List (String × PyVal)) : PyResult :=
  if (opts.map Prod.fst).filter (fun k => !(_available.contains k)) ≠ [] then
    .error (.attributeError "attributes unsupported on this platform", self)
  else setManyGo self opts

/-- The loop of `Stty.get`: `{x: getattr(self, x) for x in _available}`;
`none` models the `AttributeError` a missing attribute would raise. -/
def getGo (cache : List (String × PyVal)) : List String →
    Option (List (String × PyVal))
  | [] => some []
  | k :: rest =>
    match lookupA cache k with
    | none => none
    | some v =>
      match getGo cache rest with
      | none => none
      | some l => some ((k, v) :: l)

/-- `Stty.get()`: the dictionary of all available attributes. -/
def SttyObj.get (self : SttyObj) : Option (List (String × PyVal)) :=
  getGo self.cache _available

/-- `Stty.save(path)` JSON-dumps `self.get()`; booleans, ints and strings
survive the JSON round trip unchanged, so the persisted representation is
the dict itself. -/
def SttyObj.save (self : SttyObj) : Option (List (String × PyVal)) :=
  self.get

/-- `bytes([v])`: the one-byte bytes value, or the exception Python raises
(`True`/`False` count as 1/0; ints outside 0–255 raise `ValueError`). -/
def pyBytesOf (v : PyVal) : Except PyErr (List Nat) :=
  match v with
  | .bool b => .ok [if b then 1 else 0]
  | .int n =>
    if 0 ≤ n ∧ n < 256 then .ok [n.toNat]
    else .error (.valueError "bytes must be in range 0 to 256")
  | _ => .error (.typeError "cannot interpret value as bytes")

/-- `if k in d: d[k] = bytes([d[k]])`. -/
def convEntry (d : List (String × PyVal)) (k : String) :
    Except PyErr (List (String × PyVal)) :=
  match lookupA d k with
  | none => .ok d
  | some v =>
    match pyBytesOf v with
    | .error e => .error e
    | .ok b => .ok (updateAssoc d k (.bts b))

/-- The canonical-mode conversion in `Stty.load`: when `d.get("icanon")` is
truthy, convert the `min` and `time` entries to one-byte bytes form. -/
def convMinTime (d : List (String × PyVal)) :
    Except PyErr (List (String × PyVal)) :=
  match lookupA d "icanon" with
  | some v =>
    if v.truthy then
      match convEntry d "min" with
      | .error e => .error e
      | .ok d1 => convEntry d1 "time"
    else .ok d
  | none => .ok d

def errDeficiency : PyErr :=
  .valueError "JSON file does not contain necessary attributes"

/-- `Stty.load(path)` with `d` the dict parsed from the file.

`hasattr(super(), "_termios")` consults only class-level attributes, never
the instance `__dict__`, so it is always `False`: before any validation of
`d`, `_termios` is unconditionally re-read from `/dev/tty` (`dev` is what
`termios.tcgetattr` returns there) and `_winsize` unconditionally reset to
the default, even on an instance that already holds state.  Only then is the
deficiency check performed and, on success, the canonical-mode `min`/`time`
conversion applied and `self.set(**d)` called. -/
def SttyObj.load (self : SttyObj) (dev : TermiosData)
    (d : List (String × PyVal)) : PyResult :=
  let st : SttyObj :=
    { self with
      _termios := some dev
      _winsize := some _default_winsize }
  if _available.filter (fun k => !((d.map Prod.fst).contains k)) ≠ [] then
    .error (errDeficiency, st)
  else
    match convMinTime d with
    | .error e => .error (e, st)
    | .ok d2 => st.set d2

/-- The `_bool_d` loop of `Stty.fromfd`: cache
`True if (self._termios[x[0]] & x[1]) else False` for each boolean mask. -/
def fromfdBools : SttyObj → List (String × Nat × Nat) → PyResult
  | st, [] => .ok st
  | st, (name, x) :: rest =>
    match st._termios with
    | none => .error (errNoTermios, st)
    | some t =>
      match st.setattr name (.bool (t.getWord x.1 &&& x.2 != 0)) with
      | .error e => .error e
      | .ok st' => fromfdBools st' rest

/-- The `_symbol_d` loop of `Stty.fromfd`: set each mask to its current raw
field value (an int). -/
def fromfdSymbols : SttyObj → List (String × Nat × Nat × List (Nat × String)) →
    PyResult
  | st, [] => .ok st
  | st, (name, x) :: rest =>
    match st._termios with
    | none => .error (errNoTermios, st)
    | some t =>
      match st.setattr name (.int (t.getWord x.1 &&& x.2.1 : Nat)) with
      | .error e => .error e
      | .ok st' => fromfdSymbols st' rest

/-- The `_speed_d` loop of `Stty.fromfd`: `_baud_d_inverse[x]` raises
`KeyError` when the raw code is not an enumerated rate. -/
def fromfdSpeeds : SttyObj → List (String × Nat) → PyResult
  | st, [] => .ok st
  | st, (name, slot) :: rest =>
    match st._termios with
    | none => .error (errNoTermios, st)
    | some t =>
      match lookupBaudInv (t.getSpeed slot) with
      | none => .error (.keyError, st)
      | some n =>
        match st.setattr name (.int n) with
        | .error e => .error e
        | .ok st' => fromfdSpeeds st' rest

/-- The `_cc_d` and `_noncanon_d` loops of `Stty.fromfd`: set each attribute
to the current content of its `cc` slot (reading `self._termios[_CC][i]`
raises `IndexError` out of range). -/
def fromfdCCs : SttyObj → List (String × Nat) → PyResult
  | st, [] => .ok st
  | st, (name, idx) :: rest =>
    match st._termios with
    | none => .error (errNoTermios, st)
    | some t =>
      match t.cc.get? idx with
      | none => .error (.indexError, st)
      | some w =>
        match st.setattr name w with
        | .error e => .error e
        | .ok st' => fromfdCCs st' rest

/-- The `_winsz_d` loop of `Stty.fromfd`. -/
def fromfdWinsz : SttyObj → List (String × Nat) → PyResult
  | st, [] => .ok st
  | st, (name, idx) :: rest =>
    match st._winsize with
    | none => .error (errNoWinsize, st)
    | some ws =>
      match ws.get? idx with
      | none => .error (.indexError, st)
      | some w =>
        match st.setattr name w with
        | .error e => .error e
        | .ok st' => fromfdWinsz st' rest

/-- `Stty.fromfd(fd)` with `raw` and `wsz` the data `termios.tcgetattr(fd)`
and `termios.tcgetwinsize(fd)` return: store the raw buffers, then populate
every attribute by decoding them. -/
def SttyObj.fromfd (self : SttyObj) (raw : TermiosData) (wsz : List PyVal) :
    PyResult :=
  let st : SttyObj :=
    { self with
      _termios := some raw
      _winsize := some wsz }
  match fromfdBools st _bool_d with
  | .error e => .error e
  | .ok st =>
    match fromfdSymbols st _symbol_d with
    | .error e => .error e
    | .ok st =>
      match fromfdSpeeds st _speed_d with
      | .error e => .error e
      | .ok st =>
        match fromfdCCs st _cc_d with
        | .error e => .error e
        | .ok st =>
          match fromfdCCs st _noncanon_d with
          | .error e => .error e
          | .ok st =>
            match st._winsize with
            | some ws =>
              if ws ≠ [] then fromfdWinsz st _winsz_d else .ok st
            | none => .ok st

/-- A loop of `Stty.raw`: set each named boolean attribute to `False`. -/
def rawBoolsFalse : SttyObj → List String → PyResult
  | st, [] => .ok st
  | st, name :: rest =>
    match st.setattr name (.bool false) with
    | .error e => .error e
    | .ok st' => rawBoolsFalse st' rest

/-- `Stty.raw()`: clear every iflag and lflag boolean, then
`self.set(opost=False, parenb=False, csize=cs8, min=1, time=0)` (`cs8` is
the module-level alias for `termios.CS8 = 0x30`). -/
def SttyObj.raw (self : SttyObj) : PyResult :=
  match rawBoolsFalse self _iflag_bool_names with
  | .error e => .error e
  | .ok st =>
    match rawBoolsFalse st _lflag_bool_names with
    | .error e => .error e
    | .ok st =>
      st.set [("opost", .bool false), ("parenb", .bool false),
              ("csize", .int 0x30), ("min", .int 1), ("time", .int 0)]

/-! ## The cache/raw-buffer consistency invariant (§3 of the spec)

For each attribute category, the cached symbolic value (when present in the
instance dict) agrees with the raw bits it summarizes. -/

/-- A cached boolean equals the truth of its bit. -/
def boolSync (t : TermiosData) (cache : List (String × PyVal))
    (e : String × Nat × Nat) : Bool :=
  match lookupA cache e.1 with
  | none => true
  | some v => decide (v = .bool (t.getWord e.2.1 &&& e.2.2 != 0))

/-- A cached mask symbol is the canonical name of the raw field value. -/
def symbolSync (t : TermiosData) (cache : List (String × PyVal))
    (e : String × Nat × Nat × List (Nat × String)) : Bool :=
  match lookupA cache e.1 with
  | none => true
  | some v =>
    match lookupSymNum e.2.2.2 ((t.getWord e.2.1 &&& e.2.2.1 : Nat) : Int) with
    | some p => decide (v = .str p.2)
    | none => false

/-- A cached speed is int-like and resolves through `_baud_d` to the raw
speed code (int-like rather than int: `ispeed = False` stores rate 0 and
caches `False`). -/
def speedSync (t : TermiosData) (cache : List (String × PyVal))
    (e : String × Nat) : Bool :=
  match lookupA cache e.1 with
  | none => true
  | some v => v.isInt && decide (lookupBaud v.asInt = some (t.getSpeed e.2))

/-- A cached control-character string is the decoding of the byte stored in
its slot. -/
def ccSync (t : TermiosData) (cache : List (String × PyVal))
    (e : String × Nat) : Bool :=
  match lookupA cache e.1 with
  | none => true
  | some v =>
    match t.cc.get? e.2 with
    | some (.bts b) => decide ((cc_bytes_to_str b).map PyVal.str = some v)
    | _ => false

/-- A cached `min`/`time` is int-like and its slot holds either the matching
one-byte bytes value or the same int-like value. -/
def noncanonSync (t : TermiosData) (cache : List (String × PyVal))
    (e : String × Nat) : Bool :=
  match lookupA cache e.1 with
  | none => true
  | some v =>
    v.isInt &&
      match t.cc.get? e.2 with
      | some w =>
        decide (w = .bts [v.asInt.toNat] ∧ 0 ≤ v.asInt) ||
          (w.isInt && decide (w.asInt = v.asInt))
      | none => false

/-- A cached window dimension is int-like and is the very object stored in
the winsize list. -/
def winszSync (ws : List PyVal) (cache : List (String × PyVal))
    (e : String × Nat) : Bool :=
  match lookupA cache e.1 with
  | none => true
  | some v => v.isInt && decide (ws.get? e.2 = some v)

/-- The §3 invariant: raw buffers present and every cached attribute
consistent with the raw bits. -/
def consistent (self : SttyObj) : Bool :=
  match self._termios, self._winsize with
  | some t, some ws =>
    _bool_d.all (boolSync t self.cache) &&
    _symbol_d.all (symbolSync t self.cache) &&
    _speed_d.all (speedSync t self.cache) &&
    _cc_d.all (ccSync t self.cache) &&
    _noncanon_d.all (noncanonSync t self.cache) &&
    _winsz_d.all (winszSync ws self.cache)
  | _, _ => false

/-- A concrete object state used by the witnesses: raw buffers present
(all-zero flag words, rate 0 speeds, 32 disabled control characters, a
24×80 window), empty attribute cache. -/
def concStty : SttyObj :=
  { _termios := some
      { iflag := 0, oflag := 0, cflag := 0, lflag := 0, ispeed := 0,
        ospeed := 0, cc := List.replicate 32 (.bts [0]) }
    _winsize := some [.int 24, .int 80]
    cache := [] }

/-- A concrete `/dev/tty` termios, different from `concStty`'s buffer. -/
def devT : TermiosData :=
  { iflag := 0x500, oflag := 0x5, cflag := 0xbf, lflag := 0x8a3b,
    ispeed := 13, ospeed := 13, cc := List.replicate 32 (.bts [1]) }

/-! ## Round trip: `fromfd` → `save` → `load` (C9)

The round trip is proved through a per-attribute well-formedness predicate
`goodEntry` on dict entries: the values `fromfd` caches satisfy it, and
`__setattr__` accepts any value satisfying it, caching a value that compares
equal to the persisted one. -/

/-- Shape of a populated object: raw buffers present, `cc` of the termios
list 32 entries long (`NCCS`), winsize of length 2. -/
def stShape (st : SttyObj) : Bool :=
  (match st._termios with
   | some t => t.cc.length == 32
   | none => false) &&
  (match st._winsize with
   | some ws => ws.length == 2
   | none => false)

/-- Well-formedness of a persisted dict entry, per attribute category:
a value `__setattr__` accepts for that attribute and caches in a form that
compares equal to the input. -/
def goodEntry (name : String) (v : PyVal) : Bool :=
  match lookupA _bool_d name with
  | some _ => v.isBool
  | none =>
  match lookupA _symbol_d name with
  | some x =>
    (match v with
     | .str s => (lookupSymStr x.2.2 s).isSome
     | _ => false)
  | none =>
  match lookupA _speed_d name with
  | some _ => v.isInt && (lookupBaud v.asInt).isSome
  | none =>
  match lookupA _cc_d name with
  | some _ =>
    (match v with
     | .str s => ((cc_str_to_bytes s).bind cc_bytes_to_str) == some s
     | _ => false)
  | none =>
  match lookupA _noncanon_d name with
  | some _ =>
    (match v with
     | .int k => decide (0 ≤ k) && decide (k < 256)
     | .bts vb => vb.length == 1
     | _ => false)
  | none =>
  match lookupA _winsz_d name with
  | some _ => v.isInt && decide (0 ≤ v.asInt)
  | none => false

/-- The value `__setattr__` caches for a good entry: the input itself,
except that a one-byte `bytes` value for `min`/`time` is cached as the int
it wraps. -/
def expCache (v : PyVal) : PyVal :=
  match v with
  | .bts vb => .int (vb.headD 0 : Nat)
  | v => v

/-- A concrete descriptor state: all flag words zero, 9600 baud, every
control character `^C`, `VTIME = 0`, `VMIN = 1`. -/
def rawC : TermiosData :=
  { iflag := 0, oflag := 0, cflag := 0, lflag := 0, ispeed := 13, ospeed := 13,
    cc := ((List.replicate 32 (PyVal.bts [3])).set 5 (.int 0)).set 6 (.int 1) }

def wszC : List PyVal := [.int 24, .int 80]

/-- The state `fromfd` builds from `rawC`/`wszC`. -/
def stC : SttyObj :=
  match emptyStty.fromfd rawC wszC with
  | .ok s => s
  | .error _ => emptyStty

/-- The dict `save` persists for `stC`. -/
def dC : List (String × PyVal) := (stC.save).getD []

/-! ## Theorems -/

theorem testBit_pyAndNot (x m i : Nat) :
    (pyAndNot x m).testBit i = (x.testBit i && !(m.testBit i)) := by
  simp only [pyAndNot, Nat.testBit_xor, Nat.testBit_and]
  cases x.testBit i <;> cases m.testBit i <;> rfl

theorem pyAndNot_eq_ldiff (x m : Nat) : pyAndNot x m = Nat.ldiff x m := by
  apply Nat.eq_of_testBit_eq
  intro i
  rw [testBit_pyAndNot, Nat.testBit_ldiff]

/-- C1 -- The many-to-one normalization of the codec, exactly as claimed:
`cc_str_to_bytes "^-"` and `cc_str_to_bytes "undef"` both produce the
disabled sentinel; `cc_bytes_to_str` of the sentinel yields `"undef"` and
never `"^-"`; `decode (encode " ") = " "`; `encode "^C" = 0x03` and
`decode 0x03 = "^C"`; lowercase `"^a"` encodes to `0x01`, which decodes back
to the uppercase `"^A"`. -/
theorem cc_codec_normalization :
    cc_str_to_bytes "^-" = some [_POSIX_VDISABLE] ∧
    cc_str_to_bytes "undef" = some [_POSIX_VDISABLE] ∧
    cc_bytes_to_str [_POSIX_VDISABLE] = some "undef" ∧
    cc_bytes_to_str [_POSIX_VDISABLE] ≠ some "^-" ∧
    (cc_str_to_bytes " ").bind cc_bytes_to_str = some " " ∧
    cc_str_to_bytes "^C" = some [0x03] ∧
    cc_bytes_to_str [0x03] = some "^C" ∧
    cc_str_to_bytes "^a" = some [0x01] ∧
    cc_bytes_to_str [0x01] = some "^A" := by
  decide

/-- C2 (counterexample) -- The single non-printable character `"\x01"` is not
encodable according to the claim's case list, yet `cc_str_to_bytes` produces
a value for it, refuting "for any other input string no value is produced". -/
theorem cc_str_to_bytes_accepts_nonprintable :
    specEncodableB "\x01" = false ∧ cc_str_to_bytes "\x01" = some [0x01] := by
  decide

theorem string_eq_iff_data (s t : String) : s = t ↔ s.data = t.data :=
  ⟨fun h => by rw [h], fun h => by cases s; cases t; exact congrArg String.mk h⟩

/-- C2 (amended) -- On ASCII input (the region where the model of Python's
`str.isalpha` is exact), `cc_str_to_bytes` produces a byte exactly in the
amended claim's cases: any single character (its own code point), `^X` with
`X` a letter or one of `[ \ ] ^ _` (`X & 0x1f`), `"^?"` (DEL), and
`"^-"`/`"undef"` (the disabled sentinel); any other string produces no
value. -/
theorem cc_str_to_bytes_cases (s : String)
    (_hascii : ∀ c ∈ s.data, c.toNat < 0x80) :
    cc_str_to_bytes s = claimC2_encode s := by
  have hq : s = "^?" ↔ s.data = ['^', '?'] := string_eq_iff_data s "^?"
  unfold cc_str_to_bytes claimC2_encode
  rcases hdata : s.data with _ | ⟨c1, _ | ⟨c2, _ | ⟨c3, rest⟩⟩⟩
  · rw [hdata] at hq
    simp only [hq]
    by_cases h2 : s = "^-" ∨ s = "undef" <;> simp [h2]
  · rfl
  · rw [hdata] at hq
    by_cases h2 : s = "^-" ∨ s = "undef"
    · simp [h2]
    · by_cases hc1 : c1 = '^'
      · subst hc1
        by_cases hc2 : c2 = '?'
        · subst hc2
          simp [h2, hq]
        · have : ¬ s = "^?" := by
            rw [hq]
            simp [hc2]
          simp [h2, hc2, this]
      · have : ¬ s = "^?" := by
          rw [hq]
          simp [hc1]
        simp [h2, hc1, this]
  · rw [hdata] at hq
    by_cases h2 : s = "^-" ∨ s = "undef"
    · simp [h2]
    · have : ¬ s = "^?" := by
        rw [hq]
        simp
      simp [h2, this]

/-- C2 (amended, witness) -- the characterization applied at the ASCII input
`"^C"`. -/
theorem cc_str_to_bytes_cases_witness :
    (∀ c ∈ "^C".data, c.toNat < 0x80) ∧
      cc_str_to_bytes "^C" = claimC2_encode "^C" :=
  ⟨by decide, cc_str_to_bytes_cases "^C" (by decide)⟩

/-! ## Infrastructure lemmas: association lists, bit arithmetic, tables -/

theorem lookupA_mem {β : Type} {l : List (String × β)} {k : String} {v : β}
    (h : lookupA l k = some v) : (k, v) ∈ l := by
  induction l with
  | nil => simp [lookupA] at h
  | cons p rest ih =>
    rw [lookupA] at h
    split at h
    · rename_i heq
      injection h with h
      subst h
      subst heq
      exact List.mem_cons_self _ _
    · exact List.mem_cons_of_mem _ (ih h)

theorem lookupA_updateAssoc_self (l : List (String × PyVal)) (k : String)
    (v : PyVal) : lookupA (updateAssoc l k v) k = some v := by
  induction l with
  | nil => simp [updateAssoc, lookupA]
  | cons p rest ih =>
    obtain ⟨k', v'⟩ := p
    rw [updateAssoc]
    split
    · simp [lookupA]
    · rename_i hne
      rw [lookupA]
      split
      · exact absurd (by assumption) hne
      · exact ih

theorem lookupA_updateAssoc_ne (l : List (String × PyVal)) (k k' : String)
    (v : PyVal) (h : k' ≠ k) :
    lookupA (updateAssoc l k v) k' = lookupA l k' := by
  have hkk : ¬ (k = k') := fun hh => h hh.symm
  induction l with
  | nil => simp only [updateAssoc, lookupA, if_neg hkk]
  | cons p rest ih =>
    obtain ⟨k'', v'⟩ := p
    simp only [updateAssoc]
    split
    · rename_i heq
      subst heq
      simp only [lookupA, if_neg hkk]
    · simp only [lookupA]
      split
      · rfl
      · exact ih

/-- Two entries of a list with nodup keys that share a key are equal. -/
theorem mem_eq_of_keys_nodup {β : Type} {l : List (String × β)}
    (h : (l.map Prod.fst).Nodup) {a b : String × β}
    (ha : a ∈ l) (hb : b ∈ l) (hk : a.1 = b.1) : a = b := by
  induction l with
  | nil => cases ha
  | cons p rest ih =>
    rw [List.map_cons, List.nodup_cons] at h
    rcases List.mem_cons.1 ha with ha1 | ha2 <;>
      rcases List.mem_cons.1 hb with hb1 | hb2
    · rw [ha1, hb1]
    · exfalso
      apply h.1
      have hbm : b.1 ∈ rest.map Prod.fst := List.mem_map_of_mem Prod.fst hb2
      rwa [← hk, ha1] at hbm
    · exfalso
      apply h.1
      have ham : a.1 ∈ rest.map Prod.fst := List.mem_map_of_mem Prod.fst ha2
      rwa [hk, hb1] at ham
    · exact ih h.2 ha2 hb2

/-! Bit arithmetic: the facts needed about `|||`, `&&&` and `pyAndNot` with
disjoint masks, proved bitwise. -/

theorem or_and_untouched (x m m' : Nat) (h : m' &&& m = 0) :
    (x ||| m) &&& m' = x &&& m' := by
  apply Nat.eq_of_testBit_eq
  intro i
  have hb : (m'.testBit i && m.testBit i) = false := by
    rw [← Nat.testBit_and, h]
    simp
  simp only [Nat.testBit_and, Nat.testBit_or]
  cases hx : x.testBit i <;> cases hm : m.testBit i <;>
    cases hm' : m'.testBit i <;> simp_all

theorem pyAndNot_and_untouched (x m m' : Nat) (h : m' &&& m = 0) :
    pyAndNot x m &&& m' = x &&& m' := by
  apply Nat.eq_of_testBit_eq
  intro i
  have hb : (m'.testBit i && m.testBit i) = false := by
    rw [← Nat.testBit_and, h]
    simp
  simp only [Nat.testBit_and, testBit_pyAndNot]
  cases hx : x.testBit i <;> cases hm : m.testBit i <;>
    cases hm' : m'.testBit i <;> simp_all

theorem or_and_self (x m : Nat) : (x ||| m) &&& m = m := by
  apply Nat.eq_of_testBit_eq
  intro i
  simp only [Nat.testBit_and, Nat.testBit_or]
  cases hx : x.testBit i <;> cases hm : m.testBit i <;> simp_all

theorem pyAndNot_and_self (x m : Nat) : pyAndNot x m &&& m = 0 := by
  apply Nat.eq_of_testBit_eq
  intro i
  simp only [Nat.testBit_and, testBit_pyAndNot]
  cases hx : x.testBit i <;> cases hm : m.testBit i <;> simp_all

theorem clear_or_and_self (x m v : Nat) (hv : v &&& m = v) :
    (pyAndNot x m ||| v) &&& m = v := by
  apply Nat.eq_of_testBit_eq
  intro i
  have hb : (v.testBit i && m.testBit i) = v.testBit i := by
    rw [← Nat.testBit_and, hv]
  simp only [Nat.testBit_and, Nat.testBit_or, testBit_pyAndNot]
  cases hx : x.testBit i <;> cases hm : m.testBit i <;>
    cases hvv : v.testBit i <;> simp_all

theorem clear_or_and_untouched (x m v m' : Nat) (h : m' &&& m = 0)
    (hv : v &&& m' = 0) : (pyAndNot x m ||| v) &&& m' = x &&& m' := by
  apply Nat.eq_of_testBit_eq
  intro i
  have hb : (m'.testBit i && m.testBit i) = false := by
    rw [← Nat.testBit_and, h]
    simp
  have hb2 : (v.testBit i && m'.testBit i) = false := by
    rw [← Nat.testBit_and, hv]
    simp
  simp only [Nat.testBit_and, Nat.testBit_or, testBit_pyAndNot]
  cases hx : x.testBit i <;> cases hm : m.testBit i <;>
    cases hm' : m'.testBit i <;> cases hvv : v.testBit i <;> simp_all

/-! Structural facts about `TermiosData` updates. -/

theorem getWord_setWord_self (t : TermiosData) (i w : Nat) (hi : i < 4) :
    (t.setWord i w).getWord i = w := by
  interval_cases i <;> simp [TermiosData.setWord, TermiosData.getWord]

theorem getWord_setWord_ne (t : TermiosData) (i j w : Nat) (h : i ≠ j)
    (hi : i < 4) (hj : j < 4) :
    (t.setWord i w).getWord j = t.getWord j := by
  interval_cases i <;> interval_cases j <;>
    simp_all [TermiosData.setWord, TermiosData.getWord]

theorem getSpeed_setWord (t : TermiosData) (i w s : Nat) :
    (t.setWord i w).getSpeed s = t.getSpeed s := by
  unfold TermiosData.setWord TermiosData.getSpeed
  split_ifs <;> rfl

theorem cc_setWord (t : TermiosData) (i w : Nat) :
    (t.setWord i w).cc = t.cc := by
  unfold TermiosData.setWord
  split_ifs <;> rfl

theorem getWord_setSpeed (t : TermiosData) (s w i : Nat) :
    (t.setSpeed s w).getWord i = t.getWord i := by
  unfold TermiosData.setSpeed TermiosData.getWord
  split_ifs <;> rfl

theorem cc_setSpeed (t : TermiosData) (s w : Nat) :
    (t.setSpeed s w).cc = t.cc := by
  unfold TermiosData.setSpeed
  split_ifs <;> rfl

theorem getSpeed_setSpeed_self (t : TermiosData) (s w : Nat) :
    (t.setSpeed s w).getSpeed s = w := by
  unfold TermiosData.setSpeed TermiosData.getSpeed
  split_ifs <;> simp_all

/-! ## Facts about the concrete platform tables (all by computation) -/

theorem bool_d_flag_lt : ∀ e ∈ _bool_d, e.2.1 < 4 := by decide

theorem symbol_d_flag_lt : ∀ e ∈ _symbol_d, e.2.1 < 4 := by decide

theorem bool_d_mask_nonzero : ∀ e ∈ _bool_d, e.2.2 ≠ 0 := by decide

theorem bool_d_keys_nodup : (_bool_d.map Prod.fst).Nodup := by decide

theorem symbol_d_keys_nodup : (_symbol_d.map Prod.fst).Nodup := by decide

theorem speed_d_keys_nodup : (_speed_d.map Prod.fst).Nodup := by decide

theorem cc_d_keys_nodup : (_cc_d.map Prod.fst).Nodup := by decide

theorem noncanon_d_keys_nodup : (_noncanon_d.map Prod.fst).Nodup := by decide

theorem winsz_d_keys_nodup : (_winsz_d.map Prod.fst).Nodup := by decide

/-- Distinct boolean masks on the same flag word are disjoint. -/
theorem bool_d_pairwise_disjoint : ∀ e ∈ _bool_d, ∀ f ∈ _bool_d,
    e.1 ≠ f.1 → e.2.1 = f.2.1 → e.2.2 &&& f.2.2 = 0 := by decide

/-- Boolean masks are disjoint from every symbol field mask on the same
word. -/
theorem bool_symbol_disjoint : ∀ e ∈ _bool_d, ∀ s ∈ _symbol_d,
    e.2.1 = s.2.1 → e.2.2 &&& s.2.2.1 = 0 := by decide

/-- Distinct symbol fields on the same flag word are disjoint. -/
theorem symbol_d_pairwise_disjoint : ∀ s ∈ _symbol_d, ∀ u ∈ _symbol_d,
    s.1 ≠ u.1 → s.2.1 = u.2.1 → s.2.2.1 &&& u.2.2.1 = 0 := by decide

/-- Every enumerated raw value of a symbol mask lies within the mask. -/
theorem symbol_d_value_in_mask : ∀ s ∈ _symbol_d, ∀ p ∈ s.2.2.2,
    p.1 &&& s.2.2.1 = p.1 := by decide

/-- The key sets of the six attribute tables are pairwise disjoint. -/
theorem keys_bool_symbol : ∀ e ∈ _bool_d, ∀ f ∈ _symbol_d, e.1 ≠ f.1 := by decide

theorem keys_bool_speed : ∀ e ∈ _bool_d, ∀ f ∈ _speed_d, e.1 ≠ f.1 := by decide

theorem keys_bool_cc : ∀ e ∈ _bool_d, ∀ f ∈ _cc_d, e.1 ≠ f.1 := by decide

theorem keys_bool_noncanon : ∀ e ∈ _bool_d, ∀ f ∈ _noncanon_d, e.1 ≠ f.1 := by
  decide

theorem keys_bool_winsz : ∀ e ∈ _bool_d, ∀ f ∈ _winsz_d, e.1 ≠ f.1 := by decide

theorem keys_symbol_speed : ∀ e ∈ _symbol_d, ∀ f ∈ _speed_d, e.1 ≠ f.1 := by
  decide

theorem keys_symbol_cc : ∀ e ∈ _symbol_d, ∀ f ∈ _cc_d, e.1 ≠ f.1 := by decide

theorem keys_symbol_noncanon : ∀ e ∈ _symbol_d, ∀ f ∈ _noncanon_d, e.1 ≠ f.1 := by
  decide

theorem keys_symbol_winsz : ∀ e ∈ _symbol_d, ∀ f ∈ _winsz_d, e.1 ≠ f.1 := by
  decide

theorem keys_speed_cc : ∀ e ∈ _speed_d, ∀ f ∈ _cc_d, e.1 ≠ f.1 := by decide

theorem keys_speed_noncanon : ∀ e ∈ _speed_d, ∀ f ∈ _noncanon_d, e.1 ≠ f.1 := by
  decide

theorem keys_speed_winsz : ∀ e ∈ _speed_d, ∀ f ∈ _winsz_d, e.1 ≠ f.1 := by decide

theorem keys_cc_noncanon : ∀ e ∈ _cc_d, ∀ f ∈ _noncanon_d, e.1 ≠ f.1 := by decide

theorem keys_cc_winsz : ∀ e ∈ _cc_d, ∀ f ∈ _winsz_d, e.1 ≠ f.1 := by decide

theorem keys_noncanon_winsz : ∀ e ∈ _noncanon_d, ∀ f ∈ _winsz_d, e.1 ≠ f.1 := by
  decide

/-- The two speed slots. -/
theorem speed_d_slots : ∀ e ∈ _speed_d, e.2 = 4 ∨ e.2 = 5 := by decide

theorem speed_d_slots_ne : ∀ e ∈ _speed_d, ∀ f ∈ _speed_d,
    e.1 ≠ f.1 → e.2 ≠ f.2 := by decide

/-- Control-character slot indices are pairwise distinct, also across
`_cc_d` and `_noncanon_d`. -/
theorem cc_d_slots_ne : ∀ e ∈ _cc_d, ∀ f ∈ _cc_d, e.1 ≠ f.1 → e.2 ≠ f.2 := by
  decide

theorem cc_noncanon_slots_ne : ∀ e ∈ _cc_d, ∀ f ∈ _noncanon_d, e.2 ≠ f.2 := by
  decide

theorem noncanon_d_slots_ne : ∀ e ∈ _noncanon_d, ∀ f ∈ _noncanon_d,
    e.1 ≠ f.1 → e.2 ≠ f.2 := by decide

theorem winsz_d_slots_ne : ∀ e ∈ _winsz_d, ∀ f ∈ _winsz_d,
    e.1 ≠ f.1 → e.2 ≠ f.2 := by decide

theorem symbol_d_avail_keys_nodup :
    ∀ s ∈ _symbol_d, (s.2.2.2.map Prod.fst).Nodup := by decide

/-! Frame lemmas: a sync predicate is preserved when the raw data it reads
and the cache entry it reads are unchanged. -/

theorem boolSync_frame {t t' : TermiosData} {cache cache' : List (String × PyVal)}
    {e : String × Nat × Nat}
    (hw : t'.getWord e.2.1 &&& e.2.2 = t.getWord e.2.1 &&& e.2.2)
    (hc : lookupA cache' e.1 = lookupA cache e.1)
    (h : boolSync t cache e = true) : boolSync t' cache' e = true := by
  unfold boolSync at *
  rw [hc, hw]
  exact h

theorem symbolSync_frame {t t' : TermiosData} {cache cache' : List (String × PyVal)}
    {e : String × Nat × Nat × List (Nat × String)}
    (hw : t'.getWord e.2.1 &&& e.2.2.1 = t.getWord e.2.1 &&& e.2.2.1)
    (hc : lookupA cache' e.1 = lookupA cache e.1)
    (h : symbolSync t cache e = true) : symbolSync t' cache' e = true := by
  unfold symbolSync at *
  rw [hc, hw]
  exact h

theorem speedSync_frame {t t' : TermiosData} {cache cache' : List (String × PyVal)}
    {e : String × Nat}
    (hw : t'.getSpeed e.2 = t.getSpeed e.2)
    (hc : lookupA cache' e.1 = lookupA cache e.1)
    (h : speedSync t cache e = true) : speedSync t' cache' e = true := by
  unfold speedSync at *
  rw [hc, hw]
  exact h

theorem ccSync_frame {t t' : TermiosData} {cache cache' : List (String × PyVal)}
    {e : String × Nat}
    (hw : t'.cc.get? e.2 = t.cc.get? e.2)
    (hc : lookupA cache' e.1 = lookupA cache e.1)
    (h : ccSync t cache e = true) : ccSync t' cache' e = true := by
  unfold ccSync at *
  rw [hc, hw]
  exact h

theorem noncanonSync_frame {t t' : TermiosData} {cache cache' : List (String × PyVal)}
    {e : String × Nat}
    (hw : t'.cc.get? e.2 = t.cc.get? e.2)
    (hc : lookupA cache' e.1 = lookupA cache e.1)
    (h : noncanonSync t cache e = true) : noncanonSync t' cache' e = true := by
  unfold noncanonSync at *
  rw [hc, hw]
  exact h

theorem winszSync_frame {ws ws' : List PyVal} {cache cache' : List (String × PyVal)}
    {e : String × Nat}
    (hw : ws'.get? e.2 = ws.get? e.2)
    (hc : lookupA cache' e.1 = lookupA cache e.1)
    (h : winszSync ws cache e = true) : winszSync ws' cache' e = true := by
  unfold winszSync at *
  rw [hc, hw]
  exact h

/-- `find?` by numeric key returns the member itself when keys are nodup. -/
theorem lookupSymNum_self {l : List (Nat × String)}
    (h : (l.map Prod.fst).Nodup) {p : Nat × String} (hp : p ∈ l) :
    lookupSymNum l (p.1 : Int) = some p := by
  induction l with
  | nil => cases hp
  | cons q rest ih =>
    rw [List.map_cons, List.nodup_cons] at h
    rcases List.mem_cons.1 hp with h1 | h2
    · subst h1
      unfold lookupSymNum
      rw [List.find?_cons_of_pos _ (by simp)]
    · have hne : q.1 ≠ p.1 := by
        intro hq
        apply h.1
        rw [hq]
        exact List.mem_map_of_mem Prod.fst h2
      unfold lookupSymNum at *
      rw [List.find?_cons_of_neg _ (by simp [hne])]
      exact ih h.2 h2

theorem lookupSymStr_mem {l : List (Nat × String)} {s : String} {vi : Nat}
    (h : lookupSymStr l s = some vi) : (vi, s) ∈ l := by
  unfold lookupSymStr at h
  rcases hf : l.find? (fun p => p.2 = s) with _ | p
  · rw [hf] at h
    cases h
  · rw [hf] at h
    have hm := List.mem_of_find?_eq_some hf
    have hp := List.find?_some hf
    simp only [decide_eq_true_eq] at hp
    injection h with h
    have : p = (vi, s) := by
      obtain ⟨a, b⟩ := p
      simp_all
    rwa [this] at hm

theorem lookupSymNum_mem {l : List (Nat × String)} {v : Int} {p : Nat × String}
    (h : lookupSymNum l v = some p) : p ∈ l ∧ (p.1 : Int) = v := by
  unfold lookupSymNum at h
  rcases hf : l.find? (fun q => (q.1 : Int) = v) with _ | q
  · rw [hf] at h
    cases h
  · rw [hf] at h
    injection h with h
    subst h
    have hp := List.find?_some hf
    simp only [decide_eq_true_eq] at hp
    exact ⟨List.mem_of_find?_eq_some hf, hp⟩

/-! ## Per-branch lemmas for `__setattr__`: errors leave the state as it
was; successes preserve consistency. -/

theorem setattrBool_error {self : SttyObj} {name : String} {value : PyVal}
    {x : Nat × Nat} {e : PyErr} {st' : SttyObj}
    (h : setattrBool self name value x = .error (e, st')) : st' = self := by
  unfold setattrBool at h
  split at h
  · injection h with h
    cases h
    rfl
  · split at h
    · injection h with h
      cases h
      rfl
    · cases h

theorem symbolStore_error {self : SttyObj} {name : String}
    {x : Nat × Nat × List (Nat × String)} {vi : Nat} {vs : String} {e : PyErr}
    {st' : SttyObj} (h : symbolStore self name x vi vs = .error (e, st')) :
    st' = self := by
  unfold symbolStore at h
  split at h
  · injection h with h
    cases h
    rfl
  · cases h

theorem setattrSymbol_error {self : SttyObj} {name : String} {value : PyVal}
    {x : Nat × Nat × List (Nat × String)} {e : PyErr} {st' : SttyObj}
    (h : setattrSymbol self name value x = .error (e, st')) : st' = self := by
  unfold setattrSymbol at h
  split at h
  · injection h with h
    cases h
    rfl
  · split at h
    · injection h with h
      cases h
      rfl
    · exact symbolStore_error h
  · split at h
    · injection h with h
      cases h
      rfl
    · exact symbolStore_error h

theorem setattrSpeed_error {self : SttyObj} {name : String} {value : PyVal}
    {slot : Nat} {e : PyErr} {st' : SttyObj}
    (h : setattrSpeed self name value slot = .error (e, st')) : st' = self := by
  unfold setattrSpeed at h
  split at h
  · injection h with h
    cases h
    rfl
  · split at h
    · injection h with h
      cases h
      rfl
    · split at h
      · injection h with h
        cases h
        rfl
      · cases h

theorem ccStore_error {self : SttyObj} {name : String} {idx : Nat}
    {vb : List Nat} {vs : String} {e : PyErr} {st' : SttyObj}
    (h : ccStore self name idx vb vs = .error (e, st')) : st' = self := by
  unfold ccStore at h
  split at h
  · injection h with h
    cases h
    rfl
  · split at h
    · injection h with h
      cases h
      rfl
    · cases h

theorem setattrCC_error {self : SttyObj} {name : String} {value : PyVal}
    {idx : Nat} {e : PyErr} {st' : SttyObj}
    (h : setattrCC self name value idx = .error (e, st')) : st' = self := by
  unfold setattrCC at h
  split at h
  · split at h
    · injection h with h
      cases h
      rfl
    · split at h
      · injection h with h
        cases h
        rfl
      · exact ccStore_error h
  · split at h
    · injection h with h
      cases h
      rfl
    · exact ccStore_error h
  · injection h with h
    cases h
    rfl

theorem noncanonStore_error {self : SttyObj} {name : String} {idx : Nat}
    {value cached : PyVal} {e : PyErr} {st' : SttyObj}
    (h : noncanonStore self name idx value cached = .error (e, st')) :
    st' = self := by
  unfold noncanonStore at h
  split at h
  · injection h with h
    cases h
    rfl
  · split at h
    · injection h with h
      cases h
      rfl
    · cases h

theorem setattrNoncanon_error {self : SttyObj} {name : String} {value : PyVal}
    {idx : Nat} {e : PyErr} {st' : SttyObj}
    (h : setattrNoncanon self name value idx = .error (e, st')) :
    st' = self := by
  unfold setattrNoncanon at h
  split at h
  · split at h
    · injection h with h
      cases h
      rfl
    · exact noncanonStore_error h
  · split at h
    · injection h with h
      cases h
      rfl
    · split at h
      · injection h with h
        cases h
        rfl
      · exact noncanonStore_error h

theorem setattrWinsz_error {self : SttyObj} {name : String} {value : PyVal}
    {idx : Nat} {e : PyErr} {st' : SttyObj}
    (h : setattrWinsz self name value idx = .error (e, st')) : st' = self := by
  unfold setattrWinsz at h
  split at h
  · injection h with h
    cases h
    rfl
  · split at h
    · injection h with h
      cases h
      rfl
    · split at h
      · injection h with h
        cases h
        rfl
      · split at h
        · injection h with h
          cases h
          rfl
        · cases h

/-- Every raise in `Stty.__setattr__` happens before any mutation: the state
carried by the exception is the state the call received. -/
theorem setattr_error_unchanged {st : SttyObj} {name : String} {v : PyVal}
    {e : PyErr} {st' : SttyObj}
    (h : st.setattr name v = .error (e, st')) : st' = st := by
  unfold SttyObj.setattr at h
  split at h
  · injection h with h
    cases h
    rfl
  · split at h
    · exact setattrBool_error h
    · split at h
      · exact setattrSymbol_error h
      · split at h
        · exact setattrSpeed_error h
        · split at h
          · exact setattrCC_error h
          · split at h
            · exact setattrNoncanon_error h
            · split at h
              · exact setattrWinsz_error h
              · injection h with h
                cases h
                rfl

/-- Consistency of the state after a boolean store, abstracted over the new
word `W` (covers both the set and the clear case). -/
theorem boolUpdate_consistent {self : SttyObj} {t : TermiosData} {ws : List PyVal}
    (_hterm : self._termios = some t) (hwin : self._winsize = some ws)
    {name : String} {x : Nat × Nat} (hmem : (name, x) ∈ _bool_d)
    {W : Nat} {b : Bool}
    (hself : (W &&& x.2 != 0) = b)
    (hframe : ∀ m', m' &&& x.2 = 0 → W &&& m' = t.getWord x.1 &&& m')
    (hb : ∀ e ∈ _bool_d, boolSync t self.cache e = true)
    (hs : ∀ e ∈ _symbol_d, symbolSync t self.cache e = true)
    (hsp : ∀ e ∈ _speed_d, speedSync t self.cache e = true)
    (hcc : ∀ e ∈ _cc_d, ccSync t self.cache e = true)
    (hnc : ∀ e ∈ _noncanon_d, noncanonSync t self.cache e = true)
    (hwz : ∀ e ∈ _winsz_d, winszSync ws self.cache e = true) :
    consistent
      { self with
        _termios := some (t.setWord x.1 W)
        cache := updateAssoc self.cache name (.bool b) } = true := by
  have hx1 : x.1 < 4 := bool_d_flag_lt _ hmem
  unfold consistent
  dsimp only
  rw [hwin]
  simp only [Bool.and_eq_true, List.all_eq_true]
  refine ⟨⟨⟨⟨⟨?_, ?_⟩, ?_⟩, ?_⟩, ?_⟩, ?_⟩
  · intro e he
    by_cases hne : e.1 = name
    · have heq : e = (name, x) := mem_eq_of_keys_nodup bool_d_keys_nodup he hmem hne
      subst heq
      unfold boolSync
      dsimp only
      rw [lookupA_updateAssoc_self, getWord_setWord_self t x.1 W hx1, hself]
      simp
    · refine boolSync_frame ?_ (lookupA_updateAssoc_ne _ _ _ _ hne) (hb e he)
      by_cases hf : e.2.1 = x.1
      · rw [hf, getWord_setWord_self t x.1 W hx1]
        exact hframe e.2.2
          (bool_d_pairwise_disjoint e he (name, x) hmem hne (by rw [hf]))
      · rw [getWord_setWord_ne t x.1 e.2.1 W (fun hh => hf hh.symm) hx1
          (bool_d_flag_lt e he)]
  · intro e he
    have hne : e.1 ≠ name :=
      fun hh => keys_bool_symbol (name, x) hmem e he hh.symm
    refine symbolSync_frame ?_ (lookupA_updateAssoc_ne _ _ _ _ hne) (hs e he)
    by_cases hf : e.2.1 = x.1
    · rw [hf, getWord_setWord_self t x.1 W hx1]
      apply hframe
      have h2 := bool_symbol_disjoint (name, x) hmem e he (by rw [hf])
      rwa [Nat.land_comm] at h2
    · rw [getWord_setWord_ne t x.1 e.2.1 W (fun hh => hf hh.symm) hx1
        (symbol_d_flag_lt e he)]
  · intro e he
    have hne : e.1 ≠ name :=
      fun hh => keys_bool_speed (name, x) hmem e he hh.symm
    exact speedSync_frame (getSpeed_setWord t x.1 W e.2)
      (lookupA_updateAssoc_ne _ _ _ _ hne) (hsp e he)
  · intro e he
    have hne : e.1 ≠ name :=
      fun hh => keys_bool_cc (name, x) hmem e he hh.symm
    exact ccSync_frame (by rw [cc_setWord])
      (lookupA_updateAssoc_ne _ _ _ _ hne) (hcc e he)
  · intro e he
    have hne : e.1 ≠ name :=
      fun hh => keys_bool_noncanon (name, x) hmem e he hh.symm
    exact noncanonSync_frame (by rw [cc_setWord])
      (lookupA_updateAssoc_ne _ _ _ _ hne) (hnc e he)
  · intro e he
    have hne : e.1 ≠ name :=
      fun hh => keys_bool_winsz (name, x) hmem e he hh.symm
    exact winszSync_frame rfl (lookupA_updateAssoc_ne _ _ _ _ hne) (hwz e he)

theorem setattrBool_preserves {self : SttyObj} {name : String} {value : PyVal}
    {x : Nat × Nat} (hx : lookupA _bool_d name = some x)
    (h : consistent self = true) {st' : SttyObj}
    (hok : setattrBool self name value x = .ok st') :
    consistent st' = true := by
  have hmem := lookupA_mem hx
  unfold consistent at h
  rcases hterm : self._termios with _ | t
  · rw [hterm] at h
    cases h
  rcases hwin : self._winsize with _ | ws
  · rw [hterm, hwin] at h
    cases h
  rw [hterm, hwin] at h
  simp only [Bool.and_eq_true, List.all_eq_true] at h
  obtain ⟨⟨⟨⟨⟨hb, hs⟩, hsp⟩, hcc⟩, hnc⟩, hwz⟩ := h
  unfold setattrBool at hok
  rw [hterm] at hok
  rcases value with b | n | s | l
  case int => simp [PyVal.isBool] at hok
  case str => simp [PyVal.isBool] at hok
  case bts => simp [PyVal.isBool] at hok
  case bool =>
  simp only [PyVal.isBool, PyVal.truthy, Bool.not_true, Bool.false_eq_true,
    if_false] at hok
  rcases b
  case false =>
    simp only [Bool.false_eq_true, if_false] at hok
    injection hok with hok
    subst hok
    exact boolUpdate_consistent hterm hwin hmem
      (by rw [pyAndNot_and_self]; rfl)
      (fun m' hm' => pyAndNot_and_untouched _ _ _ hm') hb hs hsp hcc hnc hwz
  case true =>
    simp only [if_true] at hok
    injection hok with hok
    subst hok
    have hnz : x.2 ≠ 0 := bool_d_mask_nonzero _ hmem
    exact boolUpdate_consistent hterm hwin hmem
      (by rw [or_and_self]; simp [bne_iff_ne, hnz])
      (fun m' hm' => or_and_untouched _ _ _ hm') hb hs hsp hcc hnc hwz

/-- A value contained in a mask is disjoint from anything disjoint from the
mask. -/
theorem sub_disjoint (v m m' : Nat) (hv : v &&& m = v) (h : m' &&& m = 0) :
    v &&& m' = 0 := by
  apply Nat.eq_of_testBit_eq
  intro i
  have hb : (v.testBit i && m.testBit i) = v.testBit i := by
    rw [← Nat.testBit_and, hv]
  have hb2 : (m'.testBit i && m.testBit i) = false := by
    rw [← Nat.testBit_and, h]
    simp
  simp only [Nat.testBit_and]
  cases hx : v.testBit i <;> cases hm : m.testBit i <;>
    cases hm' : m'.testBit i <;> simp_all

theorem symbolUpdate_consistent {self : SttyObj} {t : TermiosData}
    {ws : List PyVal}
    (hterm : self._termios = some t) (hwin : self._winsize = some ws)
    {name : String} {x : Nat × Nat × List (Nat × String)}
    (hmem : (name, x) ∈ _symbol_d)
    {vi : Nat} {vs : String} (havail : (vi, vs) ∈ x.2.2)
    (hb : ∀ e ∈ _bool_d, boolSync t self.cache e = true)
    (hs : ∀ e ∈ _symbol_d, symbolSync t self.cache e = true)
    (hsp : ∀ e ∈ _speed_d, speedSync t self.cache e = true)
    (hcc : ∀ e ∈ _cc_d, ccSync t self.cache e = true)
    (hnc : ∀ e ∈ _noncanon_d, noncanonSync t self.cache e = true)
    (hwz : ∀ e ∈ _winsz_d, winszSync ws self.cache e = true)
    {st' : SttyObj} (hok : symbolStore self name x vi vs = .ok st') :
    consistent st' = true := by
  have hx1 : x.1 < 4 := symbol_d_flag_lt _ hmem
  have hsub : vi &&& x.2.1 = vi := symbol_d_value_in_mask _ hmem _ havail
  unfold symbolStore at hok
  rw [hterm] at hok
  injection hok with hok
  subst hok
  have hT2self :
      ((t.setWord x.1 (pyAndNot (t.getWord x.1) x.2.1)).setWord x.1
        ((t.setWord x.1 (pyAndNot (t.getWord x.1) x.2.1)).getWord x.1 ||| vi)).getWord
        x.1 = pyAndNot (t.getWord x.1) x.2.1 ||| vi := by
    rw [getWord_setWord_self _ _ _ hx1, getWord_setWord_self _ _ _ hx1]
  have hT2ne : ∀ j, j < 4 → j ≠ x.1 →
      ((t.setWord x.1 (pyAndNot (t.getWord x.1) x.2.1)).setWord x.1
        ((t.setWord x.1 (pyAndNot (t.getWord x.1) x.2.1)).getWord x.1 ||| vi)).getWord
        j = t.getWord j := by
    intro j hj hne
    rw [getWord_setWord_ne _ _ _ _ (fun hh => hne hh.symm) hx1 hj,
      getWord_setWord_ne _ _ _ _ (fun hh => hne hh.symm) hx1 hj]
  have hT2cc :
      ((t.setWord x.1 (pyAndNot (t.getWord x.1) x.2.1)).setWord x.1
        ((t.setWord x.1 (pyAndNot (t.getWord x.1) x.2.1)).getWord x.1 ||| vi)).cc
        = t.cc := by
    rw [cc_setWord, cc_setWord]
  have hT2sp : ∀ s,
      ((t.setWord x.1 (pyAndNot (t.getWord x.1) x.2.1)).setWord x.1
        ((t.setWord x.1 (pyAndNot (t.getWord x.1) x.2.1)).getWord x.1 ||| vi)).getSpeed
        s = t.getSpeed s := by
    intro s
    rw [getSpeed_setWord, getSpeed_setWord]
  unfold consistent
  dsimp only
  rw [hwin]
  simp only [Bool.and_eq_true, List.all_eq_true]
  refine ⟨⟨⟨⟨⟨?_, ?_⟩, ?_⟩, ?_⟩, ?_⟩, ?_⟩
  · intro e he
    have hne : e.1 ≠ name :=
      fun hh => keys_bool_symbol e he (name, x) hmem hh
    refine boolSync_frame ?_ (lookupA_updateAssoc_ne _ _ _ _ hne) (hb e he)
    by_cases hf : e.2.1 = x.1
    · rw [hf, hT2self]
      have hdisj : e.2.2 &&& x.2.1 = 0 :=
        bool_symbol_disjoint e he (name, x) hmem hf
      rw [clear_or_and_untouched _ _ _ _ hdisj (sub_disjoint _ _ _ hsub hdisj)]
    · rw [hT2ne e.2.1 (bool_d_flag_lt e he) hf]
  · intro e he
    by_cases hne : e.1 = name
    · have heq : e = (name, x) :=
        mem_eq_of_keys_nodup symbol_d_keys_nodup he hmem hne
      subst heq
      unfold symbolSync
      dsimp only
      rw [lookupA_updateAssoc_self, hT2self,
        clear_or_and_self _ _ _ hsub,
        lookupSymNum_self (symbol_d_avail_keys_nodup _ hmem) havail]
      simp
    · refine symbolSync_frame ?_ (lookupA_updateAssoc_ne _ _ _ _ hne) (hs e he)
      by_cases hf : e.2.1 = x.1
      · rw [hf, hT2self]
        have hdisj : e.2.2.1 &&& x.2.1 = 0 :=
          symbol_d_pairwise_disjoint e he (name, x) hmem hne hf
        rw [clear_or_and_untouched _ _ _ _ hdisj
          (sub_disjoint _ _ _ hsub hdisj)]
      · rw [hT2ne e.2.1 (symbol_d_flag_lt e he) hf]
  · intro e he
    have hne : e.1 ≠ name :=
      fun hh => keys_symbol_speed (name, x) hmem e he hh.symm
    exact speedSync_frame (hT2sp e.2)
      (lookupA_updateAssoc_ne _ _ _ _ hne) (hsp e he)
  · intro e he
    have hne : e.1 ≠ name :=
      fun hh => keys_symbol_cc (name, x) hmem e he hh.symm
    exact ccSync_frame (by rw [hT2cc])
      (lookupA_updateAssoc_ne _ _ _ _ hne) (hcc e he)
  · intro e he
    have hne : e.1 ≠ name :=
      fun hh => keys_symbol_noncanon (name, x) hmem e he hh.symm
    exact noncanonSync_frame (by rw [hT2cc])
      (lookupA_updateAssoc_ne _ _ _ _ hne) (hnc e he)
  · intro e he
    have hne : e.1 ≠ name :=
      fun hh => keys_symbol_winsz (name, x) hmem e he hh.symm
    exact winszSync_frame rfl (lookupA_updateAssoc_ne _ _ _ _ hne) (hwz e he)

theorem setattrSymbol_preserves {self : SttyObj} {name : String} {value : PyVal}
    {x : Nat × Nat × List (Nat × String)} (hx : lookupA _symbol_d name = some x)
    (h : consistent self = true) {st' : SttyObj}
    (hok : setattrSymbol self name value x = .ok st') :
    consistent st' = true := by
  have hmem := lookupA_mem hx
  unfold consistent at h
  rcases hterm : self._termios with _ | t
  · rw [hterm] at h
    cases h
  rcases hwin : self._winsize with _ | ws
  · rw [hterm, hwin] at h
    cases h
  rw [hterm, hwin] at h
  simp only [Bool.and_eq_true, List.all_eq_true] at h
  obtain ⟨⟨⟨⟨⟨hb, hs⟩, hsp⟩, hcc⟩, hnc⟩, hwz⟩ := h
  unfold setattrSymbol at hok
  split at hok
  · cases hok
  · split at hok
    · cases hok
    · rename_i hfind
      exact symbolUpdate_consistent hterm hwin hmem (lookupSymStr_mem hfind)
        hb hs hsp hcc hnc hwz hok
  · split at hok
    · cases hok
    · rename_i p hfind
      have hp := (lookupSymNum_mem hfind).1
      exact symbolUpdate_consistent hterm hwin hmem (by simpa using hp)
        hb hs hsp hcc hnc hwz hok

theorem getSpeed_setSpeed_ne (t : TermiosData) {s s' : Nat} (w : Nat)
    (hs : s = 4 ∨ s = 5) (hs' : s' = 4 ∨ s' = 5) (hne : s ≠ s') :
    (t.setSpeed s w).getSpeed s' = t.getSpeed s' := by
  rcases hs with h | h <;> rcases hs' with h' | h' <;> subst_vars <;>
    simp_all [TermiosData.setSpeed, TermiosData.getSpeed]

theorem setattrSpeed_preserves {self : SttyObj} {name : String} {value : PyVal}
    {slot : Nat} (hx : lookupA _speed_d name = some slot)
    (h : consistent self = true) {st' : SttyObj}
    (hok : setattrSpeed self name value slot = .ok st') :
    consistent st' = true := by
  have hmem := lookupA_mem hx
  unfold consistent at h
  rcases hterm : self._termios with _ | t
  · rw [hterm] at h
    cases h
  rcases hwin : self._winsize with _ | ws
  · rw [hterm, hwin] at h
    cases h
  rw [hterm, hwin] at h
  simp only [Bool.and_eq_true, List.all_eq_true] at h
  obtain ⟨⟨⟨⟨⟨hb, hs⟩, hsp⟩, hcc⟩, hnc⟩, hwz⟩ := h
  unfold setattrSpeed at hok
  split at hok
  · cases hok
  · rename_i hint
    rw [Bool.not_eq_true', Bool.not_eq_false] at hint
    split at hok
    · cases hok
    · rename_i code hbaud
      rw [hterm] at hok
      injection hok with hok
      subst hok
      unfold consistent
      dsimp only
      rw [hwin]
      simp only [Bool.and_eq_true, List.all_eq_true]
      refine ⟨⟨⟨⟨⟨?_, ?_⟩, ?_⟩, ?_⟩, ?_⟩, ?_⟩
      · intro e he
        have hne : e.1 ≠ name :=
          fun hh => keys_bool_speed e he (name, slot) hmem hh
        exact boolSync_frame (by rw [getWord_setSpeed])
          (lookupA_updateAssoc_ne _ _ _ _ hne) (hb e he)
      · intro e he
        have hne : e.1 ≠ name :=
          fun hh => keys_symbol_speed e he (name, slot) hmem hh
        exact symbolSync_frame (by rw [getWord_setSpeed])
          (lookupA_updateAssoc_ne _ _ _ _ hne) (hs e he)
      · intro e he
        by_cases hne : e.1 = name
        · have heq : e = (name, slot) :=
            mem_eq_of_keys_nodup speed_d_keys_nodup he hmem hne
          subst heq
          unfold speedSync
          dsimp only
          rw [lookupA_updateAssoc_self, getSpeed_setSpeed_self]
          dsimp only
          rw [hint, hbaud]
          simp
        · refine speedSync_frame ?_ (lookupA_updateAssoc_ne _ _ _ _ hne)
            (hsp e he)
          exact getSpeed_setSpeed_ne t code
            (speed_d_slots (name, slot) hmem) (speed_d_slots e he)
            (fun hh => speed_d_slots_ne (name, slot) hmem e he
              (fun hk => hne hk.symm) hh)
      · intro e he
        have hne : e.1 ≠ name :=
          fun hh => keys_speed_cc (name, slot) hmem e he hh.symm
        exact ccSync_frame (by rw [cc_setSpeed])
          (lookupA_updateAssoc_ne _ _ _ _ hne) (hcc e he)
      · intro e he
        have hne : e.1 ≠ name :=
          fun hh => keys_speed_noncanon (name, slot) hmem e he hh.symm
        exact noncanonSync_frame (by rw [cc_setSpeed])
          (lookupA_updateAssoc_ne _ _ _ _ hne) (hnc e he)
      · intro e he
        have hne : e.1 ≠ name :=
          fun hh => keys_speed_winsz (name, slot) hmem e he hh.symm
        exact winszSync_frame rfl (lookupA_updateAssoc_ne _ _ _ _ hne)
          (hwz e he)

theorem ccStore_preserves {self : SttyObj} {t : TermiosData} {ws : List PyVal}
    (hterm : self._termios = some t) (hwin : self._winsize = some ws)
    {name : String} {idx : Nat} (hmem : (name, idx) ∈ _cc_d)
    {vb : List Nat} {vs : String} (hdec : cc_bytes_to_str vb = some vs)
    (hb : ∀ e ∈ _bool_d, boolSync t self.cache e = true)
    (hs : ∀ e ∈ _symbol_d, symbolSync t self.cache e = true)
    (hsp : ∀ e ∈ _speed_d, speedSync t self.cache e = true)
    (hcc : ∀ e ∈ _cc_d, ccSync t self.cache e = true)
    (hnc : ∀ e ∈ _noncanon_d, noncanonSync t self.cache e = true)
    (hwz : ∀ e ∈ _winsz_d, winszSync ws self.cache e = true)
    {st' : SttyObj} (hok : ccStore self name idx vb vs = .ok st') :
    consistent st' = true := by
  unfold ccStore at hok
  rw [hterm] at hok
  split at hok
  · rename_i heq
    cases heq
  · rename_i t2 heq
    injection heq with heq
    subst heq
    unfold listStore at hok
    split at hok
    · simp at hok
    · rename_i cc' heq2
      split at heq2
      case isFalse => cases heq2
      rename_i hlt
      injection heq2 with heq2
      subst heq2
      injection hok with hok
      subst hok
      unfold consistent
      dsimp only
      rw [hwin]
      simp only [Bool.and_eq_true, List.all_eq_true]
      refine ⟨⟨⟨⟨⟨?_, ?_⟩, ?_⟩, ?_⟩, ?_⟩, ?_⟩
      · intro e he
        have hne : e.1 ≠ name :=
          fun hh => keys_bool_cc e he (name, idx) hmem hh
        exact boolSync_frame rfl (lookupA_updateAssoc_ne _ _ _ _ hne) (hb e he)
      · intro e he
        have hne : e.1 ≠ name :=
          fun hh => keys_symbol_cc e he (name, idx) hmem hh
        exact symbolSync_frame rfl (lookupA_updateAssoc_ne _ _ _ _ hne)
          (hs e he)
      · intro e he
        have hne : e.1 ≠ name :=
          fun hh => keys_speed_cc e he (name, idx) hmem hh
        exact speedSync_frame rfl (lookupA_updateAssoc_ne _ _ _ _ hne)
          (hsp e he)
      · intro e he
        by_cases hne : e.1 = name
        · have heq : e = (name, idx) :=
            mem_eq_of_keys_nodup cc_d_keys_nodup he hmem hne
          subst heq
          unfold ccSync
          dsimp only
          rw [lookupA_updateAssoc_self, List.get?_set_eq_of_lt _ hlt]
          dsimp only
          rw [hdec]
          simp
        · refine ccSync_frame ?_ (lookupA_updateAssoc_ne _ _ _ _ hne)
            (hcc e he)
          dsimp only
          exact List.get?_set_ne _ _
            (fun hh => cc_d_slots_ne (name, idx) hmem e he
              (fun hk => hne hk.symm) hh)
      · intro e he
        have hne : e.1 ≠ name :=
          fun hh => keys_cc_noncanon (name, idx) hmem e he hh.symm
        refine noncanonSync_frame ?_ (lookupA_updateAssoc_ne _ _ _ _ hne)
          (hnc e he)
        dsimp only
        exact List.get?_set_ne _ _ (cc_noncanon_slots_ne (name, idx) hmem e he)
      · intro e he
        have hne : e.1 ≠ name :=
          fun hh => keys_cc_winsz (name, idx) hmem e he hh.symm
        exact winszSync_frame rfl (lookupA_updateAssoc_ne _ _ _ _ hne)
          (hwz e he)

theorem setattrCC_preserves {self : SttyObj} {name : String} {value : PyVal}
    {idx : Nat} (hx : lookupA _cc_d name = some idx)
    (h : consistent self = true) {st' : SttyObj}
    (hok : setattrCC self name value idx = .ok st') :
    consistent st' = true := by
  have hmem := lookupA_mem hx
  unfold consistent at h
  rcases hterm : self._termios with _ | t
  · rw [hterm] at h
    cases h
  rcases hwin : self._winsize with _ | ws
  · rw [hterm, hwin] at h
    cases h
  rw [hterm, hwin] at h
  simp only [Bool.and_eq_true, List.all_eq_true] at h
  obtain ⟨⟨⟨⟨⟨hb, hs⟩, hsp⟩, hcc⟩, hnc⟩, hwz⟩ := h
  unfold setattrCC at hok
  split at hok
  · split at hok
    · cases hok
    · split at hok
      · cases hok
      · rename_i hdec
        exact ccStore_preserves hterm hwin hmem hdec hb hs hsp hcc hnc hwz hok
  · split at hok
    · cases hok
    · rename_i hdec
      exact ccStore_preserves hterm hwin hmem hdec hb hs hsp hcc hnc hwz hok
  · cases hok

theorem noncanonStore_preserves {self : SttyObj} {t : TermiosData}
    {ws : List PyVal}
    (hterm : self._termios = some t) (hwin : self._winsize = some ws)
    {name : String} {idx : Nat} (hmem : (name, idx) ∈ _noncanon_d)
    {value cached : PyVal}
    (hsync : (cached.isInt &&
      (decide (value = PyVal.bts [cached.asInt.toNat] ∧ 0 ≤ cached.asInt) ||
        (value.isInt && decide (value.asInt = cached.asInt)))) = true)
    (hb : ∀ e ∈ _bool_d, boolSync t self.cache e = true)
    (hs : ∀ e ∈ _symbol_d, symbolSync t self.cache e = true)
    (hsp : ∀ e ∈ _speed_d, speedSync t self.cache e = true)
    (hcc : ∀ e ∈ _cc_d, ccSync t self.cache e = true)
    (hnc : ∀ e ∈ _noncanon_d, noncanonSync t self.cache e = true)
    (hwz : ∀ e ∈ _winsz_d, winszSync ws self.cache e = true)
    {st' : SttyObj} (hok : noncanonStore self name idx value cached = .ok st') :
    consistent st' = true := by
  unfold noncanonStore at hok
  rw [hterm] at hok
  split at hok
  · rename_i heq
    cases heq
  · rename_i t2 heq
    injection heq with heq
    subst heq
    unfold listStore at hok
    split at hok
    · simp at hok
    · rename_i cc' heq2
      split at heq2
      case isFalse => cases heq2
      rename_i hlt
      injection heq2 with heq2
      subst heq2
      injection hok with hok
      subst hok
      unfold consistent
      dsimp only
      rw [hwin]
      simp only [Bool.and_eq_true, List.all_eq_true]
      refine ⟨⟨⟨⟨⟨?_, ?_⟩, ?_⟩, ?_⟩, ?_⟩, ?_⟩
      · intro e he
        have hne : e.1 ≠ name :=
          fun hh => keys_bool_noncanon e he (name, idx) hmem hh
        exact boolSync_frame rfl (lookupA_updateAssoc_ne _ _ _ _ hne) (hb e he)
      · intro e he
        have hne : e.1 ≠ name :=
          fun hh => keys_symbol_noncanon e he (name, idx) hmem hh
        exact symbolSync_frame rfl (lookupA_updateAssoc_ne _ _ _ _ hne)
          (hs e he)
      · intro e he
        have hne : e.1 ≠ name :=
          fun hh => keys_speed_noncanon e he (name, idx) hmem hh
        exact speedSync_frame rfl (lookupA_updateAssoc_ne _ _ _ _ hne)
          (hsp e he)
      · intro e he
        have hne : e.1 ≠ name :=
          fun hh => keys_cc_noncanon e he (name, idx) hmem hh
        refine ccSync_frame ?_ (lookupA_updateAssoc_ne _ _ _ _ hne) (hcc e he)
        dsimp only
        exact List.get?_set_ne _ _
          (fun hh => cc_noncanon_slots_ne e he (name, idx) hmem hh.symm)
      · intro e he
        by_cases hne : e.1 = name
        · have heq : e = (name, idx) :=
            mem_eq_of_keys_nodup noncanon_d_keys_nodup he hmem hne
          subst heq
          unfold noncanonSync
          dsimp only
          rw [lookupA_updateAssoc_self, List.get?_set_eq_of_lt _ hlt]
          exact hsync
        · refine noncanonSync_frame ?_ (lookupA_updateAssoc_ne _ _ _ _ hne)
            (hnc e he)
          dsimp only
          exact List.get?_set_ne _ _
            (fun hh => noncanon_d_slots_ne (name, idx) hmem e he
              (fun hk => hne hk.symm) hh)
      · intro e he
        have hne : e.1 ≠ name :=
          fun hh => keys_noncanon_winsz (name, idx) hmem e he hh.symm
        exact winszSync_frame rfl (lookupA_updateAssoc_ne _ _ _ _ hne)
          (hwz e he)

theorem setattrNoncanon_preserves {self : SttyObj} {name : String}
    {value : PyVal} {idx : Nat} (hx : lookupA _noncanon_d name = some idx)
    (h : consistent self = true) {st' : SttyObj}
    (hok : setattrNoncanon self name value idx = .ok st') :
    consistent st' = true := by
  have hmem := lookupA_mem hx
  unfold consistent at h
  rcases hterm : self._termios with _ | t
  · rw [hterm] at h
    cases h
  rcases hwin : self._winsize with _ | ws
  · rw [hterm, hwin] at h
    cases h
  rw [hterm, hwin] at h
  simp only [Bool.and_eq_true, List.all_eq_true] at h
  obtain ⟨⟨⟨⟨⟨hb, hs⟩, hsp⟩, hcc⟩, hnc⟩, hwz⟩ := h
  unfold setattrNoncanon at hok
  split at hok
  · rename_i vb
    split at hok
    · cases hok
    · rename_i hlen
      rw [Ne, not_not] at hlen
      refine noncanonStore_preserves hterm hwin hmem ?_ hb hs hsp hcc hnc hwz
        hok
      rcases vb with _ | ⟨a, _ | ⟨b, tl⟩⟩
      · cases hlen
      · simp [PyVal.isInt, PyVal.asInt]
      · cases hlen
  · split at hok
    · cases hok
    · split at hok
      · cases hok
      · rename_i v hbts hint hneg
        rw [Bool.not_eq_true', Bool.not_eq_false] at hint
        refine noncanonStore_preserves hterm hwin hmem ?_ hb hs hsp hcc hnc
          hwz hok
        simp [hint]

theorem setattrWinsz_preserves {self : SttyObj} {name : String}
    {value : PyVal} {idx : Nat} (hx : lookupA _winsz_d name = some idx)
    (h : consistent self = true) {st' : SttyObj}
    (hok : setattrWinsz self name value idx = .ok st') :
    consistent st' = true := by
  have hmem := lookupA_mem hx
  unfold consistent at h
  rcases hterm : self._termios with _ | t
  · rw [hterm] at h
    cases h
  rcases hwin : self._winsize with _ | ws
  · rw [hterm, hwin] at h
    cases h
  rw [hterm, hwin] at h
  simp only [Bool.and_eq_true, List.all_eq_true] at h
  obtain ⟨⟨⟨⟨⟨hb, hs⟩, hsp⟩, hcc⟩, hnc⟩, hwz⟩ := h
  unfold setattrWinsz at hok
  split at hok
  · cases hok
  · rename_i hint
    rw [Bool.not_eq_true', Bool.not_eq_false] at hint
    split at hok
    · cases hok
    · rename_i hneg
      rw [hwin] at hok
      split at hok
      · rename_i heq
        cases heq
      · rename_i ws2 heq
        injection heq with heq
        subst heq
        unfold listStore at hok
        split at hok
        · simp at hok
        · rename_i ws' heq2
          split at heq2
          case isFalse => cases heq2
          rename_i hlt
          injection heq2 with heq2
          subst heq2
          injection hok with hok
          subst hok
          unfold consistent
          dsimp only
          rw [hterm]
          simp only [Bool.and_eq_true, List.all_eq_true]
          refine ⟨⟨⟨⟨⟨?_, ?_⟩, ?_⟩, ?_⟩, ?_⟩, ?_⟩
          · intro e he
            have hne : e.1 ≠ name :=
              fun hh => keys_bool_winsz e he (name, idx) hmem hh
            exact boolSync_frame rfl (lookupA_updateAssoc_ne _ _ _ _ hne)
              (hb e he)
          · intro e he
            have hne : e.1 ≠ name :=
              fun hh => keys_symbol_winsz e he (name, idx) hmem hh
            exact symbolSync_frame rfl (lookupA_updateAssoc_ne _ _ _ _ hne)
              (hs e he)
          · intro e he
            have hne : e.1 ≠ name :=
              fun hh => keys_speed_winsz e he (name, idx) hmem hh
            exact speedSync_frame rfl (lookupA_updateAssoc_ne _ _ _ _ hne)
              (hsp e he)
          · intro e he
            have hne : e.1 ≠ name :=
              fun hh => keys_cc_winsz e he (name, idx) hmem hh
            exact ccSync_frame rfl (lookupA_updateAssoc_ne _ _ _ _ hne)
              (hcc e he)
          · intro e he
            have hne : e.1 ≠ name :=
              fun hh => keys_noncanon_winsz e he (name, idx) hmem hh
            exact noncanonSync_frame rfl (lookupA_updateAssoc_ne _ _ _ _ hne)
              (hnc e he)
          · intro e he
            by_cases hne : e.1 = name
            · have heq : e = (name, idx) :=
                mem_eq_of_keys_nodup winsz_d_keys_nodup he hmem hne
              subst heq
              unfold winszSync
              dsimp only
              rw [lookupA_updateAssoc_self]
              dsimp only
              rw [hint, List.get?_set_eq_of_lt _ hlt]
              simp
            · refine winszSync_frame ?_ (lookupA_updateAssoc_ne _ _ _ _ hne)
                (hwz e he)
              dsimp only
              exact List.get?_set_ne _ _
                (fun hh => winsz_d_slots_ne (name, idx) hmem e he
                  (fun hk => hne hk.symm) hh)

/-- C3 -- `Stty.__setattr__` is atomic: on success the new state still
satisfies the cache/raw-bit consistency invariant for every attribute in the
capability set; on failure the exception carries exactly the state the call
received — no execution path leaves cache and raw buffers out of sync. -/
theorem setattr_atomic (st : SttyObj) (name : String) (v : PyVal)
    (h : consistent st = true) :
    (∀ st', st.setattr name v = .ok st' → consistent st' = true) ∧
    (∀ e st'', st.setattr name v = .error (e, st'') → st'' = st) := by
  constructor
  · intro st' hok
    unfold SttyObj.setattr at hok
    split at hok
    · cases hok
    · split at hok
      · rename_i x hx
        exact setattrBool_preserves hx h hok
      · split at hok
        · rename_i x hx
          exact setattrSymbol_preserves hx h hok
        · split at hok
          · rename_i slot hx
            exact setattrSpeed_preserves hx h hok
          · split at hok
            · rename_i idx hx
              exact setattrCC_preserves hx h hok
            · split at hok
              · rename_i idx hx
                exact setattrNoncanon_preserves hx h hok
              · split at hok
                · rename_i idx hx
                  exact setattrWinsz_preserves hx h hok
                · cases hok
  · intro e st'' herr
    exact setattr_error_unchanged herr

/-- C3 (witness) -- the atomicity theorem applied to a concrete consistent
state and the write `echo := True`. -/
theorem setattr_atomic_witness :
    consistent concStty = true ∧
    ((∀ st', concStty.setattr "echo" (.bool true) = .ok st' →
        consistent st' = true) ∧
      (∀ e st'', concStty.setattr "echo" (.bool true) = .error (e, st'') →
        st'' = concStty)) :=
  ⟨by decide, setattr_atomic concStty "echo" (.bool true) (by decide)⟩

/-- A control-character attribute name occurs in no earlier dispatch table
and is not an internal buffer name. -/
theorem cc_d_dispatch : ∀ e ∈ _cc_d,
    ¬(e.1 = "_termios" ∨ e.1 = "_winsize") ∧
    lookupA _bool_d e.1 = none ∧ lookupA _symbol_d e.1 = none ∧
    lookupA _speed_d e.1 = none := by decide

/-- C5 -- Setting a control-character attribute to a string the encoder
rejects raises `TypeError` (from `len(None)` inside `cc_bytes_to_str`), not
the `ValueError` the branch's own check intends, and the state is unchanged:
the claim's Invalid-Value outcome does not occur for any such string. -/
theorem setattr_cc_invalid_string_typeerror (st : SttyObj) (name : String)
    (idx : Nat) (s : String) (hx : lookupA _cc_d name = some idx)
    (henc : cc_str_to_bytes s = none) :
    st.setattr name (.str s) = .error (errLenOfNone, st) := by
  have hmem := lookupA_mem hx
  obtain ⟨hnb, h1, h2, h3⟩ := cc_d_dispatch _ hmem
  unfold SttyObj.setattr
  rw [if_neg hnb, h1, h2, h3, hx]
  unfold setattrCC
  dsimp only
  rw [henc]

/-- C5 (witness) -- `tty.intr = "^1"`: `"^1"` does not encode, the call
raises `TypeError`, and the object is untouched. -/
theorem setattr_cc_invalid_string_typeerror_witness :
    lookupA _cc_d "intr" = some 0 ∧ cc_str_to_bytes "^1" = none ∧
    concStty.setattr "intr" (.str "^1") = .error (errLenOfNone, concStty) :=
  ⟨by decide, by decide,
    setattr_cc_invalid_string_typeerror concStty "intr" 0 "^1" (by decide)
      (by decide)⟩

/-- C6 -- `Stty.set` with any keyword outside the capability set raises
`AttributeError` carrying the unmodified state: the excess-key check runs
before any per-attribute mutation. -/
theorem set_rejects_unknown_key (st : SttyObj) (opts : List (String × PyVal))
    (k : String) (hk : k ∈ opts.map Prod.fst) (hunk : k ∉ _available) :
    st.set opts =
      .error (.attributeError "attributes unsupported on this platform", st) := by
  unfold SttyObj.set
  rw [if_pos]
  have hmem : k ∈ (opts.map Prod.fst).filter (fun k => !(_available.contains k)) := by
    rw [List.mem_filter]
    refine ⟨hk, ?_⟩
    simp only [Bool.not_eq_true']
    rw [← Bool.not_eq_true]
    intro hc
    exact hunk (List.mem_of_elem_eq_true hc)
  intro hnil
  rw [hnil] at hmem
  cases hmem

/-- C6 (witness) -- `tty.set(echo=False, foobar=1)` is rejected whole. -/
theorem set_rejects_unknown_key_witness :
    "foobar" ∈ ([("echo", PyVal.bool false), ("foobar", PyVal.int 1)].map Prod.fst) ∧
    "foobar" ∉ _available ∧
    concStty.set [("echo", .bool false), ("foobar", .int 1)] =
      .error (.attributeError "attributes unsupported on this platform",
        concStty) :=
  ⟨by decide, by decide,
    set_rejects_unknown_key concStty
      [("echo", .bool false), ("foobar", .int 1)] "foobar" (by decide)
      (by decide)⟩

theorem bool_d_dispatch : ∀ e ∈ _bool_d,
    ¬(e.1 = "_termios" ∨ e.1 = "_winsize") := by decide

theorem symbol_d_dispatch : ∀ e ∈ _symbol_d,
    ¬(e.1 = "_termios" ∨ e.1 = "_winsize") ∧
    lookupA _bool_d e.1 = none := by decide

theorem speed_d_dispatch : ∀ e ∈ _speed_d,
    ¬(e.1 = "_termios" ∨ e.1 = "_winsize") ∧
    lookupA _bool_d e.1 = none ∧ lookupA _symbol_d e.1 = none := by decide

theorem noncanon_d_dispatch : ∀ e ∈ _noncanon_d,
    ¬(e.1 = "_termios" ∨ e.1 = "_winsize") ∧
    lookupA _bool_d e.1 = none ∧ lookupA _symbol_d e.1 = none ∧
    lookupA _speed_d e.1 = none ∧ lookupA _cc_d e.1 = none := by decide

theorem winsz_d_dispatch : ∀ e ∈ _winsz_d,
    ¬(e.1 = "_termios" ∨ e.1 = "_winsize") ∧
    lookupA _bool_d e.1 = none ∧ lookupA _symbol_d e.1 = none ∧
    lookupA _speed_d e.1 = none ∧ lookupA _cc_d e.1 = none ∧
    lookupA _noncanon_d e.1 = none := by decide

theorem setattr_eq_bool (st : SttyObj) (v : PyVal) {name : String}
    {x : Nat × Nat} (hx : lookupA _bool_d name = some x) :
    st.setattr name v = setattrBool st name v x := by
  unfold SttyObj.setattr
  rw [if_neg (bool_d_dispatch _ (lookupA_mem hx)), hx]

theorem setattr_eq_symbol (st : SttyObj) (v : PyVal) {name : String}
    {x : Nat × Nat × List (Nat × String)}
    (hx : lookupA _symbol_d name = some x) :
    st.setattr name v = setattrSymbol st name v x := by
  obtain ⟨hnb, h1⟩ := symbol_d_dispatch _ (lookupA_mem hx)
  unfold SttyObj.setattr
  rw [if_neg hnb, h1, hx]

theorem setattr_eq_speed (st : SttyObj) (v : PyVal) {name : String}
    {slot : Nat} (hx : lookupA _speed_d name = some slot) :
    st.setattr name v = setattrSpeed st name v slot := by
  obtain ⟨hnb, h1, h2⟩ := speed_d_dispatch _ (lookupA_mem hx)
  unfold SttyObj.setattr
  rw [if_neg hnb, h1, h2, hx]

theorem setattr_eq_cc (st : SttyObj) (v : PyVal) {name : String}
    {idx : Nat} (hx : lookupA _cc_d name = some idx) :
    st.setattr name v = setattrCC st name v idx := by
  obtain ⟨hnb, h1, h2, h3⟩ := cc_d_dispatch _ (lookupA_mem hx)
  unfold SttyObj.setattr
  rw [if_neg hnb, h1, h2, h3, hx]

theorem setattr_eq_noncanon (st : SttyObj) (v : PyVal) {name : String}
    {idx : Nat} (hx : lookupA _noncanon_d name = some idx) :
    st.setattr name v = setattrNoncanon st name v idx := by
  obtain ⟨hnb, h1, h2, h3, h4⟩ := noncanon_d_dispatch _ (lookupA_mem hx)
  unfold SttyObj.setattr
  rw [if_neg hnb, h1, h2, h3, h4, hx]

theorem setattr_eq_winsz (st : SttyObj) (v : PyVal) {name : String}
    {idx : Nat} (hx : lookupA _winsz_d name = some idx) :
    st.setattr name v = setattrWinsz st name v idx := by
  obtain ⟨hnb, h1, h2, h3, h4, h5⟩ := winsz_d_dispatch _ (lookupA_mem hx)
  unfold SttyObj.setattr
  rw [if_neg hnb, h1, h2, h3, h4, h5, hx]

/-- C10 -- Because Python bools are ints: `ispeed = False` passes the int
type check, resolves through `_baud_d` at rate 0 (`False == 0`), stores the
`B0` raw code and caches `False`; `ispeed = True` is rejected with
`ValueError` (1 is not an enumerated rate); and the `min`, `time`, `rows`
and `cols` setters likewise accept either bool, caching the bool itself. -/
theorem bool_passes_int_checks (st : SttyObj) (t : TermiosData)
    (ws : List PyVal) (hterm : st._termios = some t)
    (hwin : st._winsize = some ws) (hlen : 6 < t.cc.length)
    (hwlen : 1 < ws.length) :
    (st.setattr "ispeed" (.bool false) =
      .ok { st with
            _termios := some (t.setSpeed 4 0)
            cache := updateAssoc st.cache "ispeed" (.bool false) }) ∧
    (st.setattr "ispeed" (.bool true) = .error (errUnsupportedValue, st)) ∧
    (∀ b, ∃ st', st.setattr "min" (.bool b) = .ok st' ∧
      lookupA st'.cache "min" = some (.bool b)) ∧
    (∀ b, ∃ st', st.setattr "time" (.bool b) = .ok st' ∧
      lookupA st'.cache "time" = some (.bool b)) ∧
    (∀ b, ∃ st', st.setattr "rows" (.bool b) = .ok st' ∧
      lookupA st'.cache "rows" = some (.bool b)) ∧
    (∀ b, ∃ st', st.setattr "cols" (.bool b) = .ok st' ∧
      lookupA st'.cache "cols" = some (.bool b)) := by
  have hlen5 : 5 < t.cc.length := Nat.lt_of_le_of_lt (Nat.le_succ 5) hlen
  have hw0 : 0 < ws.length := Nat.lt_of_le_of_lt (Nat.zero_le 1) hwlen
  refine ⟨?_, ?_, ?_, ?_, ?_, ?_⟩
  · rw [setattr_eq_speed st (.bool false)
      (show lookupA _speed_d "ispeed" = some 4 by decide)]
    unfold setattrSpeed
    rw [(by decide : lookupBaud (PyVal.asInt (.bool false)) = some 0), hterm]
    rfl
  · rw [setattr_eq_speed st (.bool true)
      (show lookupA _speed_d "ispeed" = some 4 by decide)]
    unfold setattrSpeed
    rw [(by decide : lookupBaud (PyVal.asInt (.bool true)) = none)]
    rfl
  · intro b
    refine ⟨{ st with
              _termios := some { t with cc := t.cc.set 6 (.bool b) }
              cache := updateAssoc st.cache "min" (.bool b) }, ?_,
      lookupA_updateAssoc_self _ _ _⟩
    rw [setattr_eq_noncanon st (.bool b)
      (show lookupA _noncanon_d "min" = some 6 by decide)]
    unfold setattrNoncanon noncanonStore listStore
    cases b <;> rw [hterm] <;> dsimp only <;> rw [if_pos hlen] <;> rfl
  · intro b
    refine ⟨{ st with
              _termios := some { t with cc := t.cc.set 5 (.bool b) }
              cache := updateAssoc st.cache "time" (.bool b) }, ?_,
      lookupA_updateAssoc_self _ _ _⟩
    rw [setattr_eq_noncanon st (.bool b)
      (show lookupA _noncanon_d "time" = some 5 by decide)]
    unfold setattrNoncanon noncanonStore listStore
    cases b <;> rw [hterm] <;> dsimp only <;> rw [if_pos hlen5] <;> rfl
  · intro b
    refine ⟨{ st with
              _winsize := some (ws.set 0 (.bool b))
              cache := updateAssoc st.cache "rows" (.bool b) }, ?_,
      lookupA_updateAssoc_self _ _ _⟩
    rw [setattr_eq_winsz st (.bool b)
      (show lookupA _winsz_d "rows" = some 0 by decide)]
    unfold setattrWinsz listStore
    cases b <;> rw [hwin] <;> dsimp only <;> rw [if_pos hw0] <;> rfl
  · intro b
    refine ⟨{ st with
              _winsize := some (ws.set 1 (.bool b))
              cache := updateAssoc st.cache "cols" (.bool b) }, ?_,
      lookupA_updateAssoc_self _ _ _⟩
    rw [setattr_eq_winsz st (.bool b)
      (show lookupA _winsz_d "cols" = some 1 by decide)]
    unfold setattrWinsz listStore
    cases b <;> rw [hwin] <;> dsimp only <;> rw [if_pos hwlen] <;> rfl

/-- C10 (witness) -- applied at the concrete state. -/
theorem bool_passes_int_checks_witness :
    concStty._termios = some
      { iflag := 0, oflag := 0, cflag := 0, lflag := 0, ispeed := 0,
        ospeed := 0, cc := List.replicate 32 (.bts [0]) } ∧
    concStty.setattr "ispeed" (.bool true) =
      .error (errUnsupportedValue, concStty) :=
  ⟨rfl,
    (bool_passes_int_checks concStty _ [.int 24, .int 80] rfl rfl (by decide)
      (by decide)).2.1⟩

/-- Lookup is a function: two lookups of the same key agree. -/
theorem lookupA_det {β : Type} {l : List (String × β)} {k : String} {v v' : β}
    (h : lookupA l k = some v) (h' : lookupA l k = some v') : v = v' := by
  rw [h] at h'
  injection h'

/-- Behaviour of the `Stty.raw` boolean loops: over distinct boolean
attribute names, the loop succeeds, clears every named bit and caches
`False` for every name, and touches nothing else. -/
theorem rawBoolsFalse_spec :
    ∀ (names : List String), names.Nodup →
    (∀ n ∈ names, lookupA _bool_d n ≠ none) →
    ∀ (st : SttyObj) (t : TermiosData), st._termios = some t →
    ∃ (st' : SttyObj) (t' : TermiosData),
      rawBoolsFalse st names = .ok st' ∧
      st'._termios = some t' ∧ st'._winsize = st._winsize ∧
      t'.cc = t.cc ∧ (∀ s, t'.getSpeed s = t.getSpeed s) ∧
      (∀ n, n ∈ names → lookupA st'.cache n = some (.bool false)) ∧
      (∀ k, k ∉ names → lookupA st'.cache k = lookupA st.cache k) ∧
      (∀ n x, n ∈ names → lookupA _bool_d n = some x →
        t'.getWord x.1 &&& x.2 = 0) ∧
      (∀ f m, f < 4 →
        (∀ n x, n ∈ names → lookupA _bool_d n = some x → x.1 = f →
          m &&& x.2 = 0) →
        t'.getWord f &&& m = t.getWord f &&& m) := by
  intro names
  induction names with
  | nil =>
    intro _ _ st t hterm
    exact ⟨st, t, rfl, hterm, rfl, rfl, fun _ => rfl, by simp, fun _ _ => rfl,
      by simp, fun _ _ _ _ => rfl⟩
  | cons n rest ih =>
    intro hnodup hsub st t hterm
    rw [List.nodup_cons] at hnodup
    rcases hx : lookupA _bool_d n with _ | x
    · exact absurd hx (hsub n (List.mem_cons_self _ _))
    have hx1 : x.1 < 4 := bool_d_flag_lt _ (lookupA_mem hx)
    have hstep : st.setattr n (.bool false) = .ok
        { st with
          _termios := some (t.setWord x.1 (pyAndNot (t.getWord x.1) x.2))
          cache := updateAssoc st.cache n (.bool false) } := by
      rw [setattr_eq_bool st _ hx]
      unfold setattrBool
      rw [hterm]
      rfl
    obtain ⟨st', t', hfold, hterm', hwin', hcc', hsp', hclr, hcframe, hbits,
        hframe⟩ :=
      ih hnodup.2 (fun m hm => hsub m (List.mem_cons_of_mem _ hm))
        { st with
          _termios := some (t.setWord x.1 (pyAndNot (t.getWord x.1) x.2))
          cache := updateAssoc st.cache n (.bool false) }
        (t.setWord x.1 (pyAndNot (t.getWord x.1) x.2)) rfl
    refine ⟨st', t', ?_, hterm', hwin', ?_, ?_, ?_, ?_, ?_, ?_⟩
    · unfold rawBoolsFalse
      rw [hstep]
      exact hfold
    · rw [hcc', cc_setWord]
    · intro s
      rw [hsp' s, getSpeed_setWord]
    · intro n' hn'
      rcases List.mem_cons.1 hn' with h1 | h2
      · subst h1
        rw [hcframe n' hnodup.1]
        exact lookupA_updateAssoc_self _ _ _
      · exact hclr n' h2
    · intro k hk
      have hk1 : k ≠ n := fun hh => hk (hh ▸ List.mem_cons_self _ _)
      have hk2 : k ∉ rest := fun hh => hk (List.mem_cons_of_mem _ hh)
      rw [hcframe k hk2]
      exact lookupA_updateAssoc_ne _ _ _ _ hk1
    · intro n' x' hn' hx'
      rcases List.mem_cons.1 hn' with h1 | h2
      · subst h1
        have hxx : x' = x := lookupA_det hx' hx
        subst hxx
        have hdisj : ∀ n2 x2, n2 ∈ rest → lookupA _bool_d n2 = some x2 →
            x2.1 = x'.1 → x'.2 &&& x2.2 = 0 := by
          intro n2 x2 hn2 hx2 hw
          exact bool_d_pairwise_disjoint (n', x') (lookupA_mem hx')
            (n2, x2) (lookupA_mem hx2)
            (fun hh => hnodup.1 ((show n' = n2 from hh).symm ▸ hn2)) hw.symm
        rw [hframe x'.1 x'.2 hx1 (fun n2 x2 hn2 hx2 hw => hdisj n2 x2 hn2 hx2 hw),
          getWord_setWord_self _ _ _ hx1, pyAndNot_and_self]
      · exact hbits n' x' h2 hx'
    · intro f m hf hcond
      rw [hframe f m hf
        (fun n2 x2 hn2 hx2 hw => hcond n2 x2 (List.mem_cons_of_mem _ hn2) hx2 hw)]
      by_cases hfx : x.1 = f
      · subst hfx
        rw [getWord_setWord_self _ _ _ hx1]
        exact pyAndNot_and_untouched _ _ _
          (hcond n x (List.mem_cons_self _ _) hx rfl)
      · rw [getWord_setWord_ne _ _ _ _ hfx hx1 hf]

/-- Table facts about the iflag boolean attributes. -/
theorem iflag_entries : ∀ e ∈ _bool_d, e.1 ∈ _iflag_bool_names →
    e.2.1 = 0 ∧ e.1 ∉ _lflag_bool_names ∧ e.1 ≠ "opost" ∧ e.1 ≠ "parenb" ∧
    e.1 ≠ "csize" ∧ e.1 ≠ "min" ∧ e.1 ≠ "time" := by decide

/-- Table facts about the lflag boolean attributes. -/
theorem lflag_entries : ∀ e ∈ _bool_d, e.1 ∈ _lflag_bool_names →
    e.2.1 = 3 ∧ e.1 ≠ "opost" ∧ e.1 ≠ "parenb" ∧
    e.1 ≠ "csize" ∧ e.1 ≠ "min" ∧ e.1 ≠ "time" := by decide

/-- C8 -- After `Stty.raw()` on a state with buffers present (and the
32-slot control-character table tcgetattr provides), every iflag and lflag
boolean attribute is `False`, `opost` is `False`, `parenb` is disabled, the
character size is `cs8`, `min = 1` and `time = 0` — in the cached attributes
and in the raw flag-word bits and control-character slots alike. -/
theorem raw_combination_mode (st : SttyObj) (t : TermiosData)
    (hterm : st._termios = some t) (hlen : 6 < t.cc.length) :
    ∃ (st' : SttyObj) (t' : TermiosData),
      st.raw = .ok st' ∧ st'._termios = some t' ∧
      (∀ n x, n ∈ _iflag_bool_names → lookupA _bool_d n = some x →
        lookupA st'.cache n = some (.bool false) ∧
          t'.getWord x.1 &&& x.2 = 0) ∧
      (∀ n x, n ∈ _lflag_bool_names → lookupA _bool_d n = some x →
        lookupA st'.cache n = some (.bool false) ∧
          t'.getWord x.1 &&& x.2 = 0) ∧
      (lookupA st'.cache "opost" = some (.bool false) ∧
        t'.getWord _OFLAG &&& 0x1 = 0) ∧
      (lookupA st'.cache "parenb" = some (.bool false) ∧
        t'.getWord _CFLAG &&& 0x100 = 0) ∧
      (lookupA st'.cache "csize" = some (.str "cs8") ∧
        t'.getWord _CFLAG &&& 0x30 = 0x30) ∧
      (lookupA st'.cache "min" = some (.int 1) ∧
        t'.cc.get? 6 = some (.int 1)) ∧
      (lookupA st'.cache "time" = some (.int 0) ∧
        t'.cc.get? 5 = some (.int 0)) := by
  obtain ⟨stA, tA, hfoldA, htermA, hwinA, hccA, hspA, hclrA, hcfA, hbitsA,
      hframeA⟩ :=
    rawBoolsFalse_spec _iflag_bool_names (by decide) (by decide) st t hterm
  obtain ⟨stB, tB, hfoldB, htermB, hwinB, hccB, hspB, hclrB, hcfB, hbitsB,
      hframeB⟩ :=
    rawBoolsFalse_spec _lflag_bool_names (by decide) (by decide) stA tA htermA
  have hcctB : tB.cc = t.cc := by rw [hccB, hccA]
  have h1 : stB.setattr "opost" (.bool false) = .ok
      { stB with
        _termios := some (tB.setWord 1 (pyAndNot (tB.getWord 1) 0x1))
        cache := updateAssoc stB.cache "opost" (.bool false) } := by
    rw [setattr_eq_bool stB _ (show lookupA _bool_d "opost" = some (1, 0x1)
      by decide)]
    unfold setattrBool
    rw [htermB]
    rfl
  set t1 := tB.setWord 1 (pyAndNot (tB.getWord 1) 0x1) with ht1
  set st1 : SttyObj :=
    { stB with
      _termios := some t1
      cache := updateAssoc stB.cache "opost" (.bool false) } with hst1
  have h2 : st1.setattr "parenb" (.bool false) = .ok
      { st1 with
        _termios := some (t1.setWord 2 (pyAndNot (t1.getWord 2) 0x100))
        cache := updateAssoc st1.cache "parenb" (.bool false) } := by
    rw [setattr_eq_bool st1 _ (show lookupA _bool_d "parenb" = some (2, 0x100)
      by decide)]
    unfold setattrBool
    rfl
  set t2 := t1.setWord 2 (pyAndNot (t1.getWord 2) 0x100) with ht2
  set st2 : SttyObj :=
    { st1 with
      _termios := some t2
      cache := updateAssoc st1.cache "parenb" (.bool false) } with hst2
  have h3 : st2.setattr "csize" (.int 0x30) = .ok
      { st2 with
        _termios := some ((t2.setWord 2 (pyAndNot (t2.getWord 2) 0x30)).setWord 2
          ((t2.setWord 2 (pyAndNot (t2.getWord 2) 0x30)).getWord 2 ||| 0x30))
        cache := updateAssoc st2.cache "csize" (.str "cs8") } := by
    rw [setattr_eq_symbol st2 _ (show lookupA _symbol_d "csize" =
      some (2, 0x30, [(0x0, "cs5"), (0x10, "cs6"), (0x20, "cs7"), (0x30, "cs8")])
      by decide)]
    unfold setattrSymbol symbolStore
    rfl
  set t3 := (t2.setWord 2 (pyAndNot (t2.getWord 2) 0x30)).setWord 2
    ((t2.setWord 2 (pyAndNot (t2.getWord 2) 0x30)).getWord 2 ||| 0x30) with ht3
  set st3 : SttyObj :=
    { st2 with
      _termios := some t3
      cache := updateAssoc st2.cache "csize" (.str "cs8") } with hst3
  have hcct3 : t3.cc = t.cc := by
    rw [ht3, cc_setWord, cc_setWord, ht2, cc_setWord, ht1, cc_setWord, hcctB]
  have h4 : st3.setattr "min" (.int 1) = .ok
      { st3 with
        _termios := some { t3 with cc := t3.cc.set 6 (.int 1) }
        cache := updateAssoc st3.cache "min" (.int 1) } := by
    rw [setattr_eq_noncanon st3 _ (show lookupA _noncanon_d "min" = some 6
      by decide)]
    unfold setattrNoncanon noncanonStore listStore
    rw [show st3._termios = some t3 from rfl]
    dsimp only
    rw [if_pos (show 6 < t3.cc.length by rw [hcct3]; exact hlen)]
    rfl
  set t4 : TermiosData := { t3 with cc := t3.cc.set 6 (.int 1) } with ht4
  set st4 : SttyObj :=
    { st3 with
      _termios := some t4
      cache := updateAssoc st3.cache "min" (.int 1) } with hst4
  have hlen4 : 5 < t4.cc.length := by
    rw [ht4]
    dsimp only
    rw [List.length_set, hcct3]
    exact Nat.lt_of_le_of_lt (Nat.le_succ 5) hlen
  have h5 : st4.setattr "time" (.int 0) = .ok
      { st4 with
        _termios := some { t4 with cc := t4.cc.set 5 (.int 0) }
        cache := updateAssoc st4.cache "time" (.int 0) } := by
    rw [setattr_eq_noncanon st4 _ (show lookupA _noncanon_d "time" = some 5
      by decide)]
    unfold setattrNoncanon noncanonStore listStore
    rw [show st4._termios = some t4 from rfl]
    dsimp only
    rw [if_pos hlen4]
    rfl
  set t5 : TermiosData := { t4 with cc := t4.cc.set 5 (.int 0) } with ht5
  set st5 : SttyObj :=
    { st4 with
      _termios := some t5
      cache := updateAssoc st4.cache "time" (.int 0) } with hst5
  have hset : stB.set [("opost", .bool false), ("parenb", .bool false),
      ("csize", .int 0x30), ("min", .int 1), ("time", .int 0)] = .ok st5 := by
    unfold SttyObj.set
    rw [if_neg (by decide)]
    unfold setManyGo
    rw [h1]
    unfold setManyGo
    rw [h2]
    unfold setManyGo
    rw [h3]
    unfold setManyGo
    rw [h4]
    unfold setManyGo
    rw [h5]
    rfl
  have hraw : st.raw = .ok st5 := by
    unfold SttyObj.raw
    rw [hfoldA]
    dsimp only
    rw [hfoldB]
    dsimp only
    exact hset
  have hword : ∀ f, f < 4 → f ≠ 1 → f ≠ 2 → t5.getWord f = tB.getWord f := by
    intro f hf hf1 hf2
    have e5 : t5.getWord f = t3.getWord f := rfl
    rw [e5, ht3,
      getWord_setWord_ne _ _ _ _ (fun hh => hf2 hh.symm) (by decide) hf,
      getWord_setWord_ne _ _ _ _ (fun hh => hf2 hh.symm) (by decide) hf, ht2,
      getWord_setWord_ne _ _ _ _ (fun hh => hf2 hh.symm) (by decide) hf, ht1,
      getWord_setWord_ne _ _ _ _ (fun hh => hf1 hh.symm) (by decide) hf]
  have hchain : st5.cache = updateAssoc (updateAssoc (updateAssoc (updateAssoc
      (updateAssoc stB.cache "opost" (PyVal.bool false)) "parenb"
      (PyVal.bool false)) "csize" (PyVal.str "cs8")) "min" (PyVal.int 1))
      "time" (PyVal.int 0) := rfl
  have hcache : ∀ k, k ≠ "opost" → k ≠ "parenb" → k ≠ "csize" → k ≠ "min" →
      k ≠ "time" → lookupA st5.cache k = lookupA stB.cache k := by
    intro k k1 k2 k3 k4 k5
    rw [hchain, lookupA_updateAssoc_ne _ _ _ _ k5,
      lookupA_updateAssoc_ne _ _ _ _ k4, lookupA_updateAssoc_ne _ _ _ _ k3,
      lookupA_updateAssoc_ne _ _ _ _ k2, lookupA_updateAssoc_ne _ _ _ _ k1]
  have hw2 : t5.getWord 2 = pyAndNot (t2.getWord 2) 0x30 ||| 0x30 := by
    have e5 : t5.getWord 2 = t3.getWord 2 := rfl
    rw [e5, ht3, getWord_setWord_self _ _ _ (by decide),
      getWord_setWord_self _ _ _ (by decide)]
  refine ⟨st5, t5, hraw, rfl, ?_, ?_, ?_, ?_, ?_, ?_, ?_⟩
  · intro n x hn hx
    obtain ⟨hfl, hnl, k1, k2, k3, k4, k5⟩ :=
      iflag_entries (n, x) (lookupA_mem hx) hn
    refine ⟨?_, ?_⟩
    · rw [hcache n k1 k2 k3 k4 k5, hcfB n hnl]
      exact hclrA n hn
    · have hb := hbitsA n x hn hx
      rw [hfl] at hb
      rw [hfl, hword 0 (by decide) (by decide) (by decide),
        hframeB 0 x.2 (by decide) ?_]
      · exact hb
      · intro n2 x2 hn2 hx2 hw0
        exact absurd ((lflag_entries (n2, x2) (lookupA_mem hx2) hn2).1 ▸ hw0)
          (by decide)
  · intro n x hn hx
    obtain ⟨hfl, k1, k2, k3, k4, k5⟩ :=
      lflag_entries (n, x) (lookupA_mem hx) hn
    refine ⟨?_, ?_⟩
    · rw [hcache n k1 k2 k3 k4 k5]
      exact hclrB n hn
    · have hb := hbitsB n x hn hx
      rw [hfl] at hb
      rw [hfl, hword 3 (by decide) (by decide) (by decide)]
      exact hb
  · refine ⟨?_, ?_⟩
    · rw [hchain, lookupA_updateAssoc_ne _ _ _ _ (by decide),
        lookupA_updateAssoc_ne _ _ _ _ (by decide),
        lookupA_updateAssoc_ne _ _ _ _ (by decide),
        lookupA_updateAssoc_ne _ _ _ _ (by decide), lookupA_updateAssoc_self]
    · have e5 : t5.getWord _OFLAG = t3.getWord 1 := rfl
      rw [e5, ht3,
        getWord_setWord_ne _ _ _ _ (by decide) (by decide) (by decide),
        getWord_setWord_ne _ _ _ _ (by decide) (by decide) (by decide), ht2,
        getWord_setWord_ne _ _ _ _ (by decide) (by decide) (by decide), ht1,
        getWord_setWord_self _ _ _ (by decide), pyAndNot_and_self]
  · refine ⟨?_, ?_⟩
    · rw [hchain, lookupA_updateAssoc_ne _ _ _ _ (by decide),
        lookupA_updateAssoc_ne _ _ _ _ (by decide),
        lookupA_updateAssoc_ne _ _ _ _ (by decide), lookupA_updateAssoc_self]
    · show t5.getWord 2 &&& 0x100 = 0
      rw [hw2, clear_or_and_untouched _ _ _ _ (by decide) (by decide), ht2,
        getWord_setWord_self _ _ _ (by decide), pyAndNot_and_self]
  · refine ⟨?_, ?_⟩
    · rw [hchain, lookupA_updateAssoc_ne _ _ _ _ (by decide),
        lookupA_updateAssoc_ne _ _ _ _ (by decide), lookupA_updateAssoc_self]
    · show t5.getWord 2 &&& 0x30 = 0x30
      rw [hw2, clear_or_and_self _ _ _ (by decide)]
  · refine ⟨?_, ?_⟩
    · rw [hchain, lookupA_updateAssoc_ne _ _ _ _ (by decide),
        lookupA_updateAssoc_self]
    · have e5 : t5.cc = (t3.cc.set 6 (.int 1)).set 5 (.int 0) := rfl
      rw [e5, List.get?_set_ne _ _ (by decide),
        List.get?_set_eq_of_lt _ (by rw [hcct3]; exact hlen)]
  · refine ⟨?_, ?_⟩
    · rw [hchain, lookupA_updateAssoc_self]
    · have e5 : t5.cc = t4.cc.set 5 (.int 0) := rfl
      rw [e5, List.get?_set_eq_of_lt _ hlen4]

/-- C8 (witness) -- `raw()` applied to the concrete state. -/
theorem raw_combination_mode_witness :
    ∃ (st' : SttyObj) (t' : TermiosData), concStty.raw = .ok st' ∧
      st'._termios = some t' ∧ lookupA st'.cache "min" = some (.int 1) := by
  obtain ⟨st', t', h1, h2, _, _, _, _, _, hmin, _⟩ :=
    raw_combination_mode concStty _ rfl (by decide)
  exact ⟨st', t', h1, h2, hmin.1⟩

/-- No raise site of `__setattr__` produces the load-deficiency
`ValueError`. -/
theorem setattr_no_deficiency {st : SttyObj} {name : String} {v : PyVal}
    {st' : SttyObj} (h : st.setattr name v = .error (errDeficiency, st')) :
    False := by
  unfold SttyObj.setattr setattrBool setattrSymbol symbolStore setattrSpeed
    setattrCC ccStore setattrNoncanon noncanonStore setattrWinsz listStore at h
  repeat' split at h
  all_goals simp_all [errDeficiency, errImmutable, errNoTermios, errNoWinsize,
    errUnsupportedAttr, errUnsupportedValue, errLenOfNone]

theorem setManyGo_no_deficiency :
    ∀ (opts : List (String × PyVal)) (st st' : SttyObj),
    setManyGo st opts = .error (errDeficiency, st') → False := by
  intro opts
  induction opts with
  | nil =>
    intro st st' h
    cases h
  | cons p rest ih =>
    intro st st' h
    unfold setManyGo at h
    split at h
    · rename_i e herr
      injection h with h
      subst h
      exact setattr_no_deficiency herr
    · exact ih _ _ h

theorem set_no_deficiency {st : SttyObj} {opts : List (String × PyVal)}
    {st' : SttyObj} (h : st.set opts = .error (errDeficiency, st')) :
    False := by
  unfold SttyObj.set at h
  split at h
  · injection h with h
    simp [errDeficiency] at h
  · exact setManyGo_no_deficiency _ _ _ h

theorem pyBytesOf_no_deficiency {v : PyVal}
    (h : pyBytesOf v = .error errDeficiency) : False := by
  unfold pyBytesOf at h
  repeat' split at h
  all_goals simp_all [errDeficiency]

theorem convEntry_no_deficiency {d : List (String × PyVal)} {k : String}
    (h : convEntry d k = .error errDeficiency) : False := by
  unfold convEntry at h
  split at h
  · cases h
  · split at h
    · rename_i e heq
      injection h with h
      subst h
      exact pyBytesOf_no_deficiency heq
    · cases h

theorem convMinTime_no_deficiency {d : List (String × PyVal)}
    (h : convMinTime d = .error errDeficiency) : False := by
  unfold convMinTime at h
  split at h
  · split at h
    · split at h
      · rename_i e heq
        injection h with h
        subst h
        exact convEntry_no_deficiency heq
      · exact convEntry_no_deficiency h
    · cases h
  · cases h

/-- C4 -- `Stty.load` raises the Persistence-Incomplete `ValueError` exactly
when some capability-set attribute is missing from the persisted dict — but
when it does, the exception carries a state whose raw buffers have *already*
been replaced: `_termios` re-read from `/dev/tty` and `_winsize` reset to
the default, because `hasattr(super(), "_termios")` never sees the instance
attribute.  The failed call is not side-effect free. -/
theorem load_missing_attribute (self : SttyObj) (dev : TermiosData)
    (d : List (String × PyVal)) :
    ((∃ st', self.load dev d = .error (errDeficiency, st')) ↔
      ∃ name, name ∈ _available ∧ name ∉ d.map Prod.fst) ∧
    ((∃ name, name ∈ _available ∧ name ∉ d.map Prod.fst) →
      self.load dev d = .error (errDeficiency,
        { self with
          _termios := some dev
          _winsize := some _default_winsize })) := by
  have hmain : (_available.filter (fun k => !((d.map Prod.fst).contains k)) ≠ []) ↔
      ∃ name, name ∈ _available ∧ name ∉ d.map Prod.fst := by
    constructor
    · intro hne
      rcases hfe : _available.filter (fun k => !((d.map Prod.fst).contains k))
        with _ | ⟨a, rest⟩
      · exact absurd hfe hne
      · have ham : a ∈ _available.filter
            (fun k => !((d.map Prod.fst).contains k)) := by
          rw [hfe]
          exact List.mem_cons_self _ _
        have hsp := List.mem_filter.1 ham
        refine ⟨a, hsp.1, fun hm => ?_⟩
        have hc : ((List.map Prod.fst d).contains a) = true :=
          List.elem_eq_true_of_mem hm
        have := hsp.2
        simp [hc] at this
        obtain ⟨p, hp, hpa⟩ := List.mem_map.1 hm
        have hpd : (p.1, p.2) ∈ d := hp
        exact this p.2 (hpa ▸ hpd)
    · rintro ⟨name, hmem, hnot⟩ hnil
      have hin : name ∈ _available.filter
          (fun k => !((d.map Prod.fst).contains k)) := by
        rw [List.mem_filter]
        refine ⟨hmem, ?_⟩
        simp only [Bool.not_eq_true']
        rw [← Bool.not_eq_true]
        intro hc
        exact hnot (List.mem_of_elem_eq_true hc)
      rw [hnil] at hin
      cases hin
  by_cases hfil : _available.filter (fun k => !((d.map Prod.fst).contains k)) = []
  · have hnomiss : ¬ ∃ name, name ∈ _available ∧ name ∉ d.map Prod.fst :=
      fun hex => (hmain.2 hex) hfil
    have hnoerr : ¬ ∃ st', self.load dev d = .error (errDeficiency, st') := by
      rintro ⟨st', hld⟩
      unfold SttyObj.load at hld
      dsimp only at hld
      rw [if_neg (fun hc => hc hfil)] at hld
      split at hld
      · rename_i e herr
        injection hld with hld
        have he : e = errDeficiency := congrArg Prod.fst hld
        exact convMinTime_no_deficiency (he ▸ herr)
      · exact set_no_deficiency hld
    exact ⟨⟨fun hex => absurd hex hnoerr, fun hex => absurd hex hnomiss⟩,
      fun hex => absurd hex hnomiss⟩
  · have hld : self.load dev d = .error (errDeficiency,
        { self with
          _termios := some dev
          _winsize := some _default_winsize }) := by
      unfold SttyObj.load
      dsimp only
      rw [if_pos hfil]
    exact ⟨⟨fun _ => hmain.1 hfil, fun _ => ⟨_, hld⟩⟩, fun _ => hld⟩

/-- C4 (witness) -- loading an empty dict into an instance that already
holds state raises the deficiency error, yet the carried state shows
`_termios` replaced by the `/dev/tty` data (different from the instance's
buffer) and `_winsize` reset to the default. -/
theorem load_missing_attribute_witness :
    concStty.load devT [] = .error (errDeficiency,
      { concStty with
        _termios := some devT
        _winsize := some _default_winsize }) ∧
    some devT ≠ concStty._termios :=
  ⟨(load_missing_attribute concStty devT []).2 ⟨"echo", by decide, by decide⟩,
    by decide⟩

theorem cc_d_idx_lt32 : ∀ p ∈ _cc_d, p.2 < 32 := by decide

theorem noncanon_d_idx_lt32 : ∀ p ∈ _noncanon_d, p.2 < 32 := by decide

theorem winsz_d_idx_lt2 : ∀ p ∈ _winsz_d, p.2 < 2 := by decide

theorem available_nodup : _available.Nodup := by decide

theorem symbol_avail_str_isSome :
    ∀ e ∈ _symbol_d, ∀ q ∈ e.2.2.2, (lookupSymStr e.2.2.2 q.2).isSome := by
  decide

theorem bool_d_self_lookup : ∀ p ∈ _bool_d, (lookupA _bool_d p.1).isSome := by
  decide

theorem symbol_d_self_lookup :
    ∀ p ∈ _symbol_d, (lookupA _symbol_d p.1).isSome := by decide

theorem speed_d_self_lookup :
    ∀ p ∈ _speed_d, (lookupA _speed_d p.1).isSome := by decide

theorem cc_d_self_lookup :
    ∀ p ∈ _cc_d, ∃ i, lookupA _cc_d p.1 = some i ∧ i ≠ 5 ∧ i ≠ 6 := by decide

theorem mem_updateAssoc {p : String × PyVal} {l : List (String × PyVal)}
    {k : String} {v : PyVal} (h : p ∈ updateAssoc l k v) :
    p = (k, v) ∨ p ∈ l := by
  induction l with
  | nil =>
    rw [updateAssoc] at h
    rcases List.mem_singleton.1 h with h
    exact .inl h
  | cons q rest ih =>
    obtain ⟨k', v'⟩ := q
    rw [updateAssoc] at h
    split at h
    · rcases List.mem_cons.1 h with h | h
      · exact .inl h
      · exact .inr (List.mem_cons_of_mem _ h)
    · rcases List.mem_cons.1 h with h | h
      · exact .inr (h ▸ List.mem_cons_self _ _)
      · rcases ih h with h | h
        · exact .inl h
        · exact .inr (List.mem_cons_of_mem _ h)

theorem mem_updateAssoc_of_ne {p : String × PyVal} {l : List (String × PyVal)}
    {k : String} {v : PyVal} (hp : p ∈ l) (hne : p.1 ≠ k) :
    p ∈ updateAssoc l k v := by
  induction l with
  | nil => cases hp
  | cons q rest ih =>
    obtain ⟨k', v'⟩ := q
    rw [updateAssoc]
    split
    · rename_i heq
      rcases List.mem_cons.1 hp with h | h
      · exfalso
        exact hne (by rw [h] at *; exact heq ▸ rfl)
      · exact List.mem_cons_of_mem _ h
    · rcases List.mem_cons.1 hp with h | h
      · exact h ▸ List.mem_cons_self _ _
      · exact List.mem_cons_of_mem _ (ih h)

theorem mem_updateAssoc_self {l : List (String × PyVal)} {k : String}
    (v : PyVal) (h : k ∈ l.map Prod.fst) : (k, v) ∈ updateAssoc l k v := by
  induction l with
  | nil => cases h
  | cons q rest ih =>
    obtain ⟨k', v'⟩ := q
    rw [updateAssoc]
    split
    · exact List.mem_cons_self _ _
    · rename_i hne
      apply List.mem_cons_of_mem
      apply ih
      rw [List.map_cons, List.mem_cons] at h
      rcases h with h1 | h1
      · exact absurd h1.symm hne
      · exact h1

theorem updateAssoc_map_fst {l : List (String × PyVal)} {k : String}
    (v : PyVal) (h : k ∈ l.map Prod.fst) :
    (updateAssoc l k v).map Prod.fst = l.map Prod.fst := by
  induction l with
  | nil => cases h
  | cons q rest ih =>
    obtain ⟨k', v'⟩ := q
    rw [updateAssoc]
    split
    · rename_i heq
      simp [heq]
    · rename_i hne
      rw [List.map_cons, List.map_cons]
      congr 1
      apply ih
      rcases List.mem_map.1 h with ⟨p, hp, hpk⟩
      rcases List.mem_cons.1 hp with h1 | h1
      · rw [h1] at hpk
        exact absurd hpk hne
      · exact List.mem_map.2 ⟨p, h1, hpk⟩

theorem lookupA_isSome_of_mem_keys {β : Type} {l : List (String × β)}
    {k : String} (h : k ∈ l.map Prod.fst) : ∃ v, lookupA l k = some v := by
  induction l with
  | nil => cases h
  | cons q rest ih =>
    obtain ⟨k', v'⟩ := q
    rw [lookupA]
    split
    · exact ⟨v', rfl⟩
    · rename_i hne
      apply ih
      rcases List.mem_map.1 h with ⟨p, hp, hpk⟩
      rcases List.mem_cons.1 hp with h1 | h1
      · rw [h1] at hpk
        exact absurd hpk hne
      · exact List.mem_map.2 ⟨p, h1, hpk⟩

theorem getGo_keys : ∀ (names : List String) (cache l : List (String × PyVal)),
    getGo cache names = some l → l.map Prod.fst = names := by
  intro names
  induction names with
  | nil =>
    intro cache l h
    rw [getGo] at h
    injection h with h
    rw [← h]
    rfl
  | cons k rest ih =>
    intro cache l h
    rw [getGo] at h
    split at h
    · cases h
    · split at h
      · cases h
      · rename_i v hv l2 hl2
        injection h with h
        rw [← h, List.map_cons, ih cache l2 hl2]

theorem getGo_vals : ∀ (names : List String) (cache l : List (String × PyVal)),
    getGo cache names = some l → ∀ p ∈ l, lookupA cache p.1 = some p.2 := by
  intro names
  induction names with
  | nil =>
    intro cache l h p hp
    rw [getGo] at h
    injection h with h
    rw [← h] at hp
    cases hp
  | cons k rest ih =>
    intro cache l h p hp
    rw [getGo] at h
    split at h
    · cases h
    · rename_i v hv
      split at h
      · cases h
      · rename_i l2 hl2
        injection h with h
        rw [← h] at hp
        rcases List.mem_cons.1 hp with h1 | h1
        · rw [h1]
          exact hv
        · exact ih cache l2 hl2 p h1

/-- Decoding yields a one-byte value below 0x80. -/
theorem cc_bytes_to_str_shape {vb : List Nat} {vs : String}
    (h : cc_bytes_to_str vb = some vs) : ∃ b, vb = [b] ∧ b < 0x80 := by
  unfold cc_bytes_to_str at h
  split at h
  · rename_i byte
    refine ⟨byte, rfl, ?_⟩
    split_ifs at h with h1 h2 h3 h4
    · unfold _POSIX_VDISABLE at h1
      omega
    · omega
    · omega
    · omega
  · cases h

/-- Exhaustive check of the codec round trip below 0x80: whenever a byte
decodes, re-encoding the decoded string and decoding again is the identity
on the string. -/
theorem cc_round : ∀ b, b < 0x80 →
    (match cc_bytes_to_str [b] with
     | some vs => (((cc_str_to_bytes vs).bind cc_bytes_to_str) == some vs)
     | none => true) = true := by decide

/-- Any string in the image of the decoder re-encodes and decodes to
itself. -/
theorem cc_decode_round {vb : List Nat} {vs : String}
    (h : cc_bytes_to_str vb = some vs) :
    (cc_str_to_bytes vs).bind cc_bytes_to_str = some vs := by
  obtain ⟨b, hb, hlt⟩ := cc_bytes_to_str_shape h
  subst hb
  have h2 := cc_round b hlt
  rw [h] at h2
  dsimp only at h2
  simpa using h2

theorem stShape_mk (st : SttyObj) (t' : TermiosData)
    (c : List (String × PyVal)) (hl : t'.cc.length = 32) (ws : List PyVal)
    (hw : st._winsize = some ws) (hwl : ws.length = 2) :
    stShape { st with _termios := some t', cache := c } = true := by
  unfold stShape
  dsimp only
  rw [hw]
  simp [hl, hwl]

theorem stShape_mkw (st : SttyObj) (ws' : List PyVal)
    (c : List (String × PyVal)) (hwl : ws'.length = 2) (t : TermiosData)
    (ht : st._termios = some t) (hl : t.cc.length = 32) :
    stShape { st with _winsize := some ws', cache := c } = true := by
  unfold stShape
  dsimp only
  rw [ht]
  simp [hl, hwl]

/-- Central step of the load side of the round trip: `__setattr__` accepts
every good entry on a well-shaped object and caches `expCache` of it. -/
theorem setattr_good (st : SttyObj) (name : String) (v : PyVal)
    (hshape : stShape st = true) (hgood : goodEntry name v = true) :
    ∃ st', st.setattr name v = .ok st' ∧ stShape st' = true ∧
      st'.cache = updateAssoc st.cache name (expCache v) := by
  rcases hterm : st._termios with _ | t
  · unfold stShape at hshape
    rw [hterm] at hshape
    simp at hshape
  rcases hwin : st._winsize with _ | ws
  · unfold stShape at hshape
    rw [hterm, hwin] at hshape
    simp at hshape
  have hshape2 := hshape
  unfold stShape at hshape2
  rw [hterm, hwin] at hshape2
  simp only [Bool.and_eq_true, beq_iff_eq] at hshape2
  obtain ⟨hcclen, hwslen⟩ := hshape2
  unfold goodEntry at hgood
  split at hgood
  · -- boolean attribute
    rename_i x hx
    cases v with
    | bool b =>
      refine ⟨{ st with
          _termios := some (if (PyVal.bool b).truthy then
              t.setWord x.1 (t.getWord x.1 ||| x.2)
            else t.setWord x.1 (pyAndNot (t.getWord x.1) x.2))
          cache := updateAssoc st.cache name (.bool b) }, ?_, ?_, rfl⟩
      · rw [setattr_eq_bool st _ hx]
        unfold setattrBool
        rw [hterm]
        rfl
      · exact stShape_mk st _ _
          (by split <;> rw [cc_setWord] <;> exact hcclen) ws hwin hwslen
    | int n => simp [PyVal.isBool] at hgood
    | str s => simp [PyVal.isBool] at hgood
    | bts l => simp [PyVal.isBool] at hgood
  split at hgood
  · -- symbolic-mask attribute
    rename_i x hx
    split at hgood
    · rename_i s
      obtain ⟨vi, hvi⟩ := Option.isSome_iff_exists.1 hgood
      refine ⟨{ st with
          _termios := some ((t.setWord x.1 (pyAndNot (t.getWord x.1) x.2.1)).setWord
            x.1 ((t.setWord x.1 (pyAndNot (t.getWord x.1) x.2.1)).getWord x.1 ||| vi))
          cache := updateAssoc st.cache name (.str s) }, ?_, ?_, rfl⟩
      · rw [setattr_eq_symbol st _ hx]
        unfold setattrSymbol
        dsimp only
        rw [hvi]
        unfold symbolStore
        rw [hterm]
      · exact stShape_mk st _ _ (by rw [cc_setWord, cc_setWord]; exact hcclen)
          ws hwin hwslen
    all_goals cases hgood
  split at hgood
  · -- speed attribute
    rename_i slot hx
    simp only [Bool.and_eq_true] at hgood
    obtain ⟨hint, hsome⟩ := hgood
    obtain ⟨code, hcode⟩ := Option.isSome_iff_exists.1 hsome
    refine ⟨{ st with
        _termios := some (t.setSpeed slot code)
        cache := updateAssoc st.cache name v }, ?_, ?_, ?_⟩
    · rw [setattr_eq_speed st _ hx]
      unfold setattrSpeed
      simp only [hint, Bool.not_true, Bool.false_eq_true, if_false]
      rw [hcode, hterm]
    · exact stShape_mk st _ _ (by rw [cc_setSpeed]; exact hcclen) ws hwin hwslen
    · cases v with
      | bool b => rfl
      | int n => rfl
      | str s => simp [PyVal.isInt] at hint
      | bts l => simp [PyVal.isInt] at hint
  split at hgood
  · -- control-character attribute
    rename_i idx hx
    split at hgood
    · rename_i s
      rw [beq_iff_eq] at hgood
      rcases henc : cc_str_to_bytes s with _ | vb
      · rw [henc] at hgood
        simp at hgood
      rw [henc] at hgood
      have hdec : cc_bytes_to_str vb = some s := hgood
      have hidx := cc_d_idx_lt32 _ (lookupA_mem hx)
      refine ⟨{ st with
          _termios := some { t with cc := t.cc.set idx (.bts vb) }
          cache := updateAssoc st.cache name (.str s) }, ?_, ?_, rfl⟩
      · rw [setattr_eq_cc st _ hx]
        unfold setattrCC
        dsimp only
        rw [henc]
        dsimp only
        rw [hdec]
        dsimp only
        unfold ccStore
        rw [hterm]
        dsimp only
        rw [show listStore t.cc idx (.bts vb) = some (t.cc.set idx (.bts vb))
          from by unfold listStore; rw [if_pos (by rw [hcclen]; exact hidx)]]
      · exact stShape_mk st _ _ (by simp [hcclen]) ws hwin hwslen
    all_goals cases hgood
  split at hgood
  · -- min/time attribute
    rename_i idx hx
    have hidx := noncanon_d_idx_lt32 _ (lookupA_mem hx)
    split at hgood
    · -- int value
      rename_i k
      simp only [Bool.and_eq_true, decide_eq_true_eq] at hgood
      obtain ⟨h0, h256⟩ := hgood
      refine ⟨{ st with
          _termios := some { t with cc := t.cc.set idx (.int k) }
          cache := updateAssoc st.cache name (.int k) }, ?_, ?_, rfl⟩
      · rw [setattr_eq_noncanon st _ hx]
        unfold setattrNoncanon
        dsimp only
        simp only [PyVal.isInt, Bool.not_true, Bool.false_eq_true, if_false]
        rw [if_neg (by dsimp only [PyVal.asInt]; omega)]
        unfold noncanonStore
        rw [hterm]
        dsimp only
        rw [show listStore t.cc idx (.int k) = some (t.cc.set idx (.int k))
          from by unfold listStore; rw [if_pos (by rw [hcclen]; exact hidx)]]
      · exact stShape_mk st _ _ (by simp [hcclen]) ws hwin hwslen
    · -- bytes value
      rename_i vb
      rw [beq_iff_eq] at hgood
      refine ⟨{ st with
          _termios := some { t with cc := t.cc.set idx (.bts vb) }
          cache := updateAssoc st.cache name (.int (vb.headD 0 : Nat)) },
        ?_, ?_, rfl⟩
      · rw [setattr_eq_noncanon st _ hx]
        unfold setattrNoncanon
        dsimp only
        rw [if_neg (fun hc => hc hgood)]
        unfold noncanonStore
        rw [hterm]
        dsimp only
        rw [show listStore t.cc idx (.bts vb) = some (t.cc.set idx (.bts vb))
          from by unfold listStore; rw [if_pos (by rw [hcclen]; exact hidx)]]
      · exact stShape_mk st _ _ (by simp [hcclen]) ws hwin hwslen
    all_goals cases hgood
  split at hgood
  · -- winsize attribute
    rename_i idx hx
    simp only [Bool.and_eq_true, decide_eq_true_eq] at hgood
    obtain ⟨hint, h0⟩ := hgood
    have hidx := winsz_d_idx_lt2 _ (lookupA_mem hx)
    refine ⟨{ st with
        _winsize := some (ws.set idx v)
        cache := updateAssoc st.cache name v }, ?_, ?_, ?_⟩
    · rw [setattr_eq_winsz st _ hx]
      unfold setattrWinsz
      simp only [hint, Bool.not_true, Bool.false_eq_true, if_false]
      rw [if_neg (by omega), hwin]
      dsimp only
      rw [show listStore ws idx v = some (ws.set idx v)
        from by unfold listStore; rw [if_pos (by rw [hwslen]; exact hidx)]]
    · exact stShape_mkw st _ _ (by simp [hwslen]) t hterm hcclen
    · cases v with
      | bool b => rfl
      | int n => rfl
      | str s => simp [PyVal.isInt] at hint
      | bts l => simp [PyVal.isInt] at hint
  cases hgood

/-- The `set` loop applied to a dict of good entries with distinct keys:
it succeeds and caches `expCache` of every entry. -/
theorem setManyGo_good : ∀ (l : List (String × PyVal)) (st : SttyObj),
    stShape st = true → (∀ p ∈ l, goodEntry p.1 p.2 = true) →
    (l.map Prod.fst).Nodup →
    ∃ st', setManyGo st l = .ok st' ∧ stShape st' = true ∧
      (∀ p ∈ l, lookupA st'.cache p.1 = some (expCache p.2)) ∧
      ∀ k, k ∉ l.map Prod.fst → lookupA st'.cache k = lookupA st.cache k := by
  intro l
  induction l with
  | nil =>
    intro st hshape _ _
    exact ⟨st, rfl, hshape, fun p hp => absurd hp (List.not_mem_nil p),
      fun k _ => rfl⟩
  | cons q rest ih =>
    intro st hshape hgood hnodup
    obtain ⟨k0, v0⟩ := q
    obtain ⟨st1, hset, hshape1, hcache1⟩ :=
      setattr_good st k0 v0 hshape (hgood _ (List.mem_cons_self _ _))
    rw [List.map_cons, List.nodup_cons] at hnodup
    obtain ⟨hk0, hnodup'⟩ := hnodup
    obtain ⟨st', hfold, hshape', hmem', hrest'⟩ :=
      ih st1 hshape1 (fun p hp => hgood p (List.mem_cons_of_mem _ hp)) hnodup'
    refine ⟨st', ?_, hshape', ?_, ?_⟩
    · rw [setManyGo, hset]
      exact hfold
    · intro p hp
      rcases List.mem_cons.1 hp with h1 | h1
      · rw [h1]
        dsimp only
        rw [hrest' k0 hk0, hcache1, lookupA_updateAssoc_self]
      · exact hmem' p h1
    · intro k hk
      rw [List.map_cons, List.mem_cons] at hk
      push_neg at hk
      rw [hrest' k hk.2, hcache1, lookupA_updateAssoc_ne _ _ _ _ hk.1]

/-- The `_bool_d` loop of `fromfd`: flag words may change but `cc` and the
winsize are untouched, and every new cache entry is good. -/
theorem fromfdBools_good :
    ∀ (l : List (String × Nat × Nat)) (st st' : SttyObj) (t : TermiosData),
    st._termios = some t →
    (∀ p ∈ l, (lookupA _bool_d p.1).isSome) →
    fromfdBools st l = .ok st' →
    ∃ t', st'._termios = some t' ∧ t'.cc = t.cc ∧
      st'._winsize = st._winsize ∧
      ∀ p ∈ st'.cache, p ∈ st.cache ∨ goodEntry p.1 p.2 = true := by
  intro l
  induction l with
  | nil =>
    intro st st' t hterm _ hok
    rw [fromfdBools] at hok
    injection hok with hok
    subst hok
    exact ⟨t, hterm, rfl, rfl, fun p hp => .inl hp⟩
  | cons q rest ih =>
    intro st st' t hterm htbl hok
    obtain ⟨name, x⟩ := q
    rw [fromfdBools, hterm] at hok
    dsimp only at hok
    obtain ⟨xx, hxx⟩ := Option.isSome_iff_exists.1
      (htbl (name, x) (List.mem_cons_self _ _))
    rw [setattr_eq_bool st _ hxx] at hok
    unfold setattrBool at hok
    rw [hterm] at hok
    simp only [PyVal.isBool, Bool.not_true, Bool.false_eq_true, if_false] at hok
    obtain ⟨t', hterm', hcc', hwin', hcache'⟩ :=
      ih _ st' _ rfl (fun p hp => htbl p (List.mem_cons_of_mem _ hp)) hok
    refine ⟨t', hterm', ?_, hwin', ?_⟩
    · rw [hcc']
      split <;> rw [cc_setWord]
    · intro p hp
      rcases hcache' p hp with h1 | h1
      · rcases mem_updateAssoc h1 with h2 | h2
        · right
          rw [h2]
          unfold goodEntry
          rw [hxx]
          rfl
        · exact .inl h2
      · exact .inr h1

/-- The `_symbol_d` loop of `fromfd`: `cc` and the winsize are untouched,
every new cache entry is a good canonical-name string. -/
theorem fromfdSymbols_good :
    ∀ (l : List (String × Nat × Nat × List (Nat × String))) (st st' : SttyObj)
    (t : TermiosData),
    st._termios = some t →
    (∀ p ∈ l, (lookupA _symbol_d p.1).isSome) →
    fromfdSymbols st l = .ok st' →
    ∃ t', st'._termios = some t' ∧ t'.cc = t.cc ∧
      st'._winsize = st._winsize ∧
      ∀ p ∈ st'.cache, p ∈ st.cache ∨ goodEntry p.1 p.2 = true := by
  intro l
  induction l with
  | nil =>
    intro st st' t hterm _ hok
    rw [fromfdSymbols] at hok
    injection hok with hok
    subst hok
    exact ⟨t, hterm, rfl, rfl, fun p hp => .inl hp⟩
  | cons q rest ih =>
    intro st st' t hterm htbl hok
    obtain ⟨name, x⟩ := q
    rw [fromfdSymbols, hterm] at hok
    dsimp only at hok
    obtain ⟨xx, hxx⟩ := Option.isSome_iff_exists.1
      (htbl (name, x) (List.mem_cons_self _ _))
    rw [setattr_eq_symbol st _ hxx] at hok
    unfold setattrSymbol at hok
    dsimp only at hok
    rcases hfind : lookupSymNum xx.2.2 (PyVal.int (t.getWord x.1 &&& x.2.1 : Nat)).asInt
      with _ | p
    · rw [hfind] at hok
      dsimp only at hok
      cases hok
    · rw [hfind] at hok
      dsimp only at hok
      unfold symbolStore at hok
      rw [hterm] at hok
      dsimp only at hok
      obtain ⟨t', hterm', hcc', hwin', hcache'⟩ :=
        ih _ st' _ rfl (fun p hp => htbl p (List.mem_cons_of_mem _ hp)) hok
      refine ⟨t', hterm', ?_, hwin', ?_⟩
      · rw [hcc', cc_setWord, cc_setWord]
      · intro e he
        rcases hcache' e he with h1 | h1
        · rcases mem_updateAssoc h1 with h2 | h2
          · right
            rw [h2]
            obtain ⟨hnb, h1b⟩ := symbol_d_dispatch _ (lookupA_mem hxx)
            unfold goodEntry
            rw [h1b, hxx]
            dsimp only
            exact symbol_avail_str_isSome _ (lookupA_mem hxx) p
              (List.mem_of_find?_eq_some hfind)
          · exact .inl h2
        · exact .inr h1

/-- The `_speed_d` loop of `fromfd`: `cc` and the winsize are untouched,
every new cache entry is an enumerated rate. -/
theorem fromfdSpeeds_good :
    ∀ (l : List (String × Nat)) (st st' : SttyObj) (t : TermiosData),
    st._termios = some t →
    (∀ p ∈ l, (lookupA _speed_d p.1).isSome) →
    fromfdSpeeds st l = .ok st' →
    ∃ t', st'._termios = some t' ∧ t'.cc = t.cc ∧
      st'._winsize = st._winsize ∧
      ∀ p ∈ st'.cache, p ∈ st.cache ∨ goodEntry p.1 p.2 = true := by
  intro l
  induction l with
  | nil =>
    intro st st' t hterm _ hok
    rw [fromfdSpeeds] at hok
    injection hok with hok
    subst hok
    exact ⟨t, hterm, rfl, rfl, fun p hp => .inl hp⟩
  | cons q rest ih =>
    intro st st' t hterm htbl hok
    obtain ⟨name, slot⟩ := q
    rw [fromfdSpeeds, hterm] at hok
    dsimp only at hok
    rcases hinv : lookupBaudInv (t.getSpeed slot) with _ | n
    · rw [hinv] at hok
      dsimp only at hok
      cases hok
    rw [hinv] at hok
    dsimp only at hok
    obtain ⟨xx, hxx⟩ := Option.isSome_iff_exists.1
      (htbl (name, slot) (List.mem_cons_self _ _))
    rw [setattr_eq_speed st _ hxx] at hok
    unfold setattrSpeed at hok
    simp only [PyVal.isInt, Bool.not_true, Bool.false_eq_true, if_false] at hok
    rcases hbaud : lookupBaud (PyVal.int n).asInt with _ | code
    · rw [hbaud] at hok
      dsimp only at hok
      cases hok
    rw [hbaud, hterm] at hok
    dsimp only at hok
    obtain ⟨t', hterm', hcc', hwin', hcache'⟩ :=
      ih _ st' _ rfl (fun p hp => htbl p (List.mem_cons_of_mem _ hp)) hok
    refine ⟨t', hterm', ?_, hwin', ?_⟩
    · rw [hcc', cc_setSpeed]
    · intro e he
      rcases hcache' e he with h1 | h1
      · rcases mem_updateAssoc h1 with h2 | h2
        · right
          rw [h2]
          obtain ⟨hnb, h1b, h2b⟩ := speed_d_dispatch _ (lookupA_mem hxx)
          unfold goodEntry
          rw [h1b, h2b, hxx]
          dsimp only
          rw [hbaud]
          rfl
        · exact .inl h2
      · exact .inr h1

/-- The `_cc_d` loop of `fromfd`: slots 5 and 6 of `cc` (`VTIME`/`VMIN`) and
the winsize are untouched, every new cache entry is a canonical
control-character string. -/
theorem fromfdCCs_table_good :
    ∀ (l : List (String × Nat)) (st st' : SttyObj) (t : TermiosData),
    st._termios = some t →
    (∀ p ∈ l, ∃ i, lookupA _cc_d p.1 = some i ∧ i ≠ 5 ∧ i ≠ 6) →
    fromfdCCs st l = .ok st' →
    ∃ t', st'._termios = some t' ∧
      t'.cc.get? 5 = t.cc.get? 5 ∧ t'.cc.get? 6 = t.cc.get? 6 ∧
      st'._winsize = st._winsize ∧
      ∀ p ∈ st'.cache, p ∈ st.cache ∨ goodEntry p.1 p.2 = true := by
  intro l
  induction l with
  | nil =>
    intro st st' t hterm _ hok
    rw [fromfdCCs] at hok
    injection hok with hok
    subst hok
    exact ⟨t, hterm, rfl, rfl, rfl, fun p hp => .inl hp⟩
  | cons q rest ih =>
    intro st st' t hterm htbl hok
    obtain ⟨name, slot⟩ := q
    rw [fromfdCCs, hterm] at hok
    dsimp only at hok
    rcases hget : t.cc.get? slot with _ | w
    · rw [hget] at hok
      dsimp only at hok
      cases hok
    rw [hget] at hok
    dsimp only at hok
    obtain ⟨i, hxx, hi5, hi6⟩ := htbl (name, slot) (List.mem_cons_self _ _)
    rw [setattr_eq_cc st _ hxx] at hok
    unfold setattrCC at hok
    rcases w with b | nv | sv | vb
    · dsimp only at hok
      cases hok
    · dsimp only at hok
      cases hok
    · -- string value
      dsimp only at hok
      rcases henc : cc_str_to_bytes sv with _ | vb
      · rw [henc] at hok
        dsimp only at hok
        cases hok
      rw [henc] at hok
      dsimp only at hok
      rcases hdec : cc_bytes_to_str vb with _ | vs
      · rw [hdec] at hok
        dsimp only at hok
        cases hok
      rw [hdec] at hok
      dsimp only at hok
      unfold ccStore at hok
      rw [hterm] at hok
      dsimp only at hok
      rcases hls : listStore t.cc i (.bts vb) with _ | cc2
      · rw [hls] at hok
        dsimp only at hok
        cases hok
      rw [hls] at hok
      dsimp only at hok
      unfold listStore at hls
      split at hls
      · injection hls with hls
        obtain ⟨t', hterm', h5', h6', hwin', hcache'⟩ :=
          ih _ st' _ rfl (fun p hp => htbl p (List.mem_cons_of_mem _ hp)) hok
        refine ⟨t', hterm', ?_, ?_, hwin', ?_⟩
        · rw [h5']
          dsimp only
          rw [← hls, List.get?_set_ne _ _ hi5]
        · rw [h6']
          dsimp only
          rw [← hls, List.get?_set_ne _ _ hi6]
        · intro e he
          rcases hcache' e he with h1 | h1
          · rcases mem_updateAssoc h1 with h2 | h2
            · right
              rw [h2]
              obtain ⟨hnb, h1b, h2b, h3b⟩ := cc_d_dispatch _ (lookupA_mem hxx)
              unfold goodEntry
              rw [h1b, h2b, h3b, hxx]
              dsimp only
              rw [cc_decode_round hdec]
              simp
            · exact .inl h2
          · exact .inr h1
      · cases hls
    · -- bytes value
      dsimp only at hok
      rcases hdec : cc_bytes_to_str vb with _ | vs
      · rw [hdec] at hok
        dsimp only at hok
        cases hok
      rw [hdec] at hok
      dsimp only at hok
      unfold ccStore at hok
      rw [hterm] at hok
      dsimp only at hok
      rcases hls : listStore t.cc i (.bts vb) with _ | cc2
      · rw [hls] at hok
        dsimp only at hok
        cases hok
      rw [hls] at hok
      dsimp only at hok
      unfold listStore at hls
      split at hls
      · injection hls with hls
        obtain ⟨t', hterm', h5', h6', hwin', hcache'⟩ :=
          ih _ st' _ rfl (fun p hp => htbl p (List.mem_cons_of_mem _ hp)) hok
        refine ⟨t', hterm', ?_, ?_, hwin', ?_⟩
        · rw [h5']
          dsimp only
          rw [← hls, List.get?_set_ne _ _ hi5]
        · rw [h6']
          dsimp only
          rw [← hls, List.get?_set_ne _ _ hi6]
        · intro e he
          rcases hcache' e he with h1 | h1
          · rcases mem_updateAssoc h1 with h2 | h2
            · right
              rw [h2]
              obtain ⟨hnb, h1b, h2b, h3b⟩ := cc_d_dispatch _ (lookupA_mem hxx)
              unfold goodEntry
              rw [h1b, h2b, h3b, hxx]
              dsimp only
              rw [cc_decode_round hdec]
              simp
            · exact .inl h2
          · exact .inr h1
      · cases hls

theorem goodEntry_min_int (k : Int) (h0 : 0 ≤ k) (h256 : k < 256) :
    goodEntry "min" (.int k) = true := by
  unfold goodEntry
  rw [show lookupA _bool_d "min" = none from by decide,
    show lookupA _symbol_d "min" = none from by decide,
    show lookupA _speed_d "min" = none from by decide,
    show lookupA _cc_d "min" = none from by decide,
    show lookupA _noncanon_d "min" = some 6 from by decide]
  dsimp only
  simp [h0, h256]

theorem goodEntry_time_int (k : Int) (h0 : 0 ≤ k) (h256 : k < 256) :
    goodEntry "time" (.int k) = true := by
  unfold goodEntry
  rw [show lookupA _bool_d "time" = none from by decide,
    show lookupA _symbol_d "time" = none from by decide,
    show lookupA _speed_d "time" = none from by decide,
    show lookupA _cc_d "time" = none from by decide,
    show lookupA _noncanon_d "time" = some 5 from by decide]
  dsimp only
  simp [h0, h256]

theorem goodEntry_rows (v : PyVal) :
    goodEntry "rows" v = (v.isInt && decide (0 ≤ v.asInt)) := by
  unfold goodEntry
  rw [show lookupA _bool_d "rows" = none from by decide,
    show lookupA _symbol_d "rows" = none from by decide,
    show lookupA _speed_d "rows" = none from by decide,
    show lookupA _cc_d "rows" = none from by decide,
    show lookupA _noncanon_d "rows" = none from by decide,
    show lookupA _winsz_d "rows" = some 0 from by decide]

theorem goodEntry_cols (v : PyVal) :
    goodEntry "cols" v = (v.isInt && decide (0 ≤ v.asInt)) := by
  unfold goodEntry
  rw [show lookupA _bool_d "cols" = none from by decide,
    show lookupA _symbol_d "cols" = none from by decide,
    show lookupA _speed_d "cols" = none from by decide,
    show lookupA _cc_d "cols" = none from by decide,
    show lookupA _noncanon_d "cols" = none from by decide,
    show lookupA _winsz_d "cols" = some 1 from by decide]

/-- What a successful `fromfd` guarantees about the resulting cache, when
the descriptor's termios holds plain ints below 256 in the `VTIME`/`VMIN`
slots (as `termios.tcgetattr` produces): every cached entry that the call
added is good, and `min`/`time` are cached as bounded ints. -/
theorem fromfd_facts (self : SttyObj) (raw : TermiosData) (wsz : List PyVal)
    (st : SttyObj)
    (hmt5 : ∃ k : Int, raw.cc.get? 5 = some (.int k) ∧ 0 ≤ k ∧ k < 256)
    (hmt6 : ∃ k : Int, raw.cc.get? 6 = some (.int k) ∧ 0 ≤ k ∧ k < 256)
    (hok : self.fromfd raw wsz = .ok st) :
    (∀ p ∈ st.cache, p ∈ self.cache ∨ goodEntry p.1 p.2 = true) ∧
    (∃ k : Int, 0 ≤ k ∧ k < 256 ∧ lookupA st.cache "min" = some (.int k)) ∧
    (∃ k : Int, 0 ≤ k ∧ k < 256 ∧ lookupA st.cache "time" = some (.int k)) := by
  obtain ⟨k5, hk5get, hk50, hk5256⟩ := hmt5
  obtain ⟨k6, hk6get, hk60, hk6256⟩ := hmt6
  unfold SttyObj.fromfd at hok
  dsimp only at hok
  split at hok
  · cases hok
  rename_i st1 h1
  split at hok
  · cases hok
  rename_i st2 h2
  split at hok
  · cases hok
  rename_i st3 h3
  split at hok
  · cases hok
  rename_i st4 h4
  split at hok
  · cases hok
  rename_i st5 h5
  obtain ⟨t1, hterm1, hcc1, hwin1, hcg1⟩ :=
    fromfdBools_good _bool_d _ st1 raw rfl
      (fun p hp => bool_d_self_lookup p hp) h1
  obtain ⟨t2, hterm2, hcc2, hwin2, hcg2⟩ :=
    fromfdSymbols_good _symbol_d st1 st2 t1 hterm1
      (fun p hp => symbol_d_self_lookup p hp) h2
  obtain ⟨t3, hterm3, hcc3, hwin3, hcg3⟩ :=
    fromfdSpeeds_good _speed_d st2 st3 t2 hterm2
      (fun p hp => speed_d_self_lookup p hp) h3
  obtain ⟨t4, hterm4, h45, h46, hwin4, hcg4⟩ :=
    fromfdCCs_table_good _cc_d st3 st4 t3 hterm3
      (fun p hp => cc_d_self_lookup p hp) h4
  have hchain : ∀ p ∈ st4.cache, p ∈ self.cache ∨ goodEntry p.1 p.2 = true := by
    intro p hp
    rcases hcg4 p hp with h | h
    · rcases hcg3 p h with h | h
      · rcases hcg2 p h with h | h
        · rcases hcg1 p h with h | h
          · exact .inl h
          · exact .inr h
        · exact .inr h
      · exact .inr h
    · exact .inr h
  have hs5 : t4.cc.get? 5 = some (.int k5) := by
    rw [h45, hcc3, hcc2, hcc1]
    exact hk5get
  have hs6 : t4.cc.get? 6 = some (.int k6) := by
    rw [h46, hcc3, hcc2, hcc1]
    exact hk6get
  have hwchain : st4._winsize = some wsz := by
    rw [hwin4, hwin3, hwin2, hwin1]
  -- the `_noncanon_d` loop: two explicit steps through slots 6 and 5
  unfold _noncanon_d at h5
  rw [fromfdCCs, hterm4] at h5
  dsimp only at h5
  rw [hs6] at h5
  dsimp only at h5
  rw [setattr_eq_noncanon st4 _
    (show lookupA _noncanon_d "min" = some 6 from by decide)] at h5
  unfold setattrNoncanon at h5
  dsimp only at h5
  simp only [PyVal.isInt, Bool.not_true, Bool.false_eq_true, if_false] at h5
  rw [if_neg (show ¬ (PyVal.int k6).asInt < 0 from by
    dsimp only [PyVal.asInt]; omega)] at h5
  unfold noncanonStore at h5
  rw [hterm4] at h5
  dsimp only at h5
  rcases hls6 : listStore t4.cc 6 (.int k6) with _ | cc6
  · rw [hls6] at h5
    dsimp only at h5
    cases h5
  rw [hls6] at h5
  dsimp only at h5
  unfold listStore at hls6
  split at hls6
  swap
  · cases hls6
  injection hls6 with hls6
  have h5cc6 : cc6.get? 5 = some (.int k5) := by
    rw [← hls6, List.get?_set_ne _ _ (by decide : (6 : Nat) ≠ 5)]
    exact hs5
  rw [fromfdCCs] at h5
  dsimp only at h5
  rw [h5cc6] at h5
  dsimp only at h5
  rw [setattr_eq_noncanon _ _
    (show lookupA _noncanon_d "time" = some 5 from by decide)] at h5
  unfold setattrNoncanon at h5
  dsimp only at h5
  simp only [PyVal.isInt, Bool.not_true, Bool.false_eq_true, if_false] at h5
  rw [if_neg (show ¬ (PyVal.int k5).asInt < 0 from by
    dsimp only [PyVal.asInt]; omega)] at h5
  unfold noncanonStore at h5
  dsimp only at h5
  rcases hls5 : listStore cc6 5 (.int k5) with _ | cc7
  · rw [hls5] at h5
    dsimp only at h5
    cases h5
  rw [hls5] at h5
  dsimp only at h5
  rw [fromfdCCs] at h5
  injection h5 with h5
  -- the winsize loop
  rw [← h5] at hok
  dsimp only at hok
  rw [hwchain] at hok
  dsimp only at hok
  have hfin : ∀ (stf : SttyObj),
      stf.cache = updateAssoc (updateAssoc st4.cache "min" (PyVal.int k6))
        "time" (PyVal.int k5) ∨
      (∃ w0 w1, w0.isInt = true ∧ 0 ≤ w0.asInt ∧ w1.isInt = true ∧
        0 ≤ w1.asInt ∧
        stf.cache = updateAssoc (updateAssoc
          (updateAssoc (updateAssoc st4.cache "min" (PyVal.int k6))
            "time" (PyVal.int k5)) "rows" w0) "cols" w1) →
      (∀ p ∈ stf.cache, p ∈ self.cache ∨ goodEntry p.1 p.2 = true) ∧
      (∃ k : Int, 0 ≤ k ∧ k < 256 ∧
        lookupA stf.cache "min" = some (.int k)) ∧
      (∃ k : Int, 0 ≤ k ∧ k < 256 ∧
        lookupA stf.cache "time" = some (.int k)) := by
    intro stf hc
    rcases hc with hc | ⟨w0, w1, hw0i, hw0p, hw1i, hw1p, hc⟩
    · refine ⟨?_, ⟨k6, hk60, hk6256, ?_⟩, ⟨k5, hk50, hk5256, ?_⟩⟩
      · intro p hp
        rw [hc] at hp
        rcases mem_updateAssoc hp with h | h
        · exact .inr (h ▸ goodEntry_time_int k5 hk50 hk5256)
        rcases mem_updateAssoc h with h | h
        · exact .inr (h ▸ goodEntry_min_int k6 hk60 hk6256)
        · exact hchain p h
      · rw [hc, lookupA_updateAssoc_ne _ _ _ _ (by decide),
          lookupA_updateAssoc_self]
      · rw [hc, lookupA_updateAssoc_self]
    · refine ⟨?_, ⟨k6, hk60, hk6256, ?_⟩, ⟨k5, hk50, hk5256, ?_⟩⟩
      · intro p hp
        rw [hc] at hp
        rcases mem_updateAssoc hp with h | h
        · refine .inr ?_
          rw [h]
          dsimp only
          rw [goodEntry_cols, hw1i]
          simp [hw1p]
        rcases mem_updateAssoc h with h | h
        · refine .inr ?_
          rw [h]
          dsimp only
          rw [goodEntry_rows, hw0i]
          simp [hw0p]
        rcases mem_updateAssoc h with h | h
        · exact .inr (h ▸ goodEntry_time_int k5 hk50 hk5256)
        rcases mem_updateAssoc h with h | h
        · exact .inr (h ▸ goodEntry_min_int k6 hk60 hk6256)
        · exact hchain p h
      · rw [hc, lookupA_updateAssoc_ne _ _ _ _ (by decide),
          lookupA_updateAssoc_ne _ _ _ _ (by decide),
          lookupA_updateAssoc_ne _ _ _ _ (by decide),
          lookupA_updateAssoc_self]
      · rw [hc, lookupA_updateAssoc_ne _ _ _ _ (by decide),
          lookupA_updateAssoc_ne _ _ _ _ (by decide),
          lookupA_updateAssoc_self]
  split at hok
  · -- nonempty winsize: the `_winsz_d` loop runs, two explicit steps
    unfold _winsz_d at hok
    rw [fromfdWinsz] at hok
    dsimp only at hok
    rcases hg0 : wsz.get? 0 with _ | w0
    · rw [hg0] at hok
      dsimp only at hok
      cases hok
    rw [hg0] at hok
    dsimp only at hok
    rw [setattr_eq_winsz _ _
      (show lookupA _winsz_d "rows" = some 0 from by decide)] at hok
    unfold setattrWinsz at hok
    split at hok
    · cases hok
    rename_i st2w heq0
    split at heq0
    · cases heq0
    rename_i hw0i
    split at heq0
    · cases heq0
    rename_i hw0p
    dsimp only at heq0
    rcases hlsw0 : listStore wsz 0 w0 with _ | wsA
    · rw [hlsw0] at heq0
      dsimp only at heq0
      cases heq0
    rw [hlsw0] at heq0
    dsimp only at heq0
    injection heq0 with heq0
    rw [← heq0] at hok
    rw [fromfdWinsz] at hok
    dsimp only at hok
    rcases hg1 : wsA.get? 1 with _ | w1
    · rw [hg1] at hok
      dsimp only at hok
      cases hok
    rw [hg1] at hok
    dsimp only at hok
    rw [setattr_eq_winsz _ _
      (show lookupA _winsz_d "cols" = some 1 from by decide)] at hok
    unfold setattrWinsz at hok
    split at hok
    · cases hok
    rename_i st3w heq1
    split at heq1
    · cases heq1
    rename_i hw1i
    split at heq1
    · cases heq1
    rename_i hw1p
    dsimp only at heq1
    rcases hlsw1 : listStore wsA 1 w1 with _ | wsB
    · rw [hlsw1] at heq1
      dsimp only at heq1
      cases heq1
    rw [hlsw1] at heq1
    dsimp only at heq1
    injection heq1 with heq1
    rw [← heq1] at hok
    rw [fromfdWinsz] at hok
    injection hok with hok
    rw [Bool.not_eq_true', Bool.not_eq_false] at hw0i hw1i
    refine hfin st (.inr ⟨w0, w1, hw0i, by omega, hw1i, by omega, ?_⟩)
    rw [← hok]
  · -- empty winsize: loop skipped
    injection hok with hok
    exact hfin st (.inl (by rw [← hok]))

theorem goodEntry_icanon (v : PyVal) : goodEntry "icanon" v = v.isBool := by
  unfold goodEntry
  rw [show lookupA _bool_d "icanon" = some (3, 2) from by decide]

theorem goodEntry_min_bts (b : Nat) : goodEntry "min" (.bts [b]) = true := by
  unfold goodEntry
  rw [show lookupA _bool_d "min" = none from by decide,
    show lookupA _symbol_d "min" = none from by decide,
    show lookupA _speed_d "min" = none from by decide,
    show lookupA _cc_d "min" = none from by decide,
    show lookupA _noncanon_d "min" = some 6 from by decide]
  rfl

theorem goodEntry_time_bts (b : Nat) : goodEntry "time" (.bts [b]) = true := by
  unfold goodEntry
  rw [show lookupA _bool_d "time" = none from by decide,
    show lookupA _symbol_d "time" = none from by decide,
    show lookupA _speed_d "time" = none from by decide,
    show lookupA _cc_d "time" = none from by decide,
    show lookupA _noncanon_d "time" = some 5 from by decide]
  rfl

/-- Only `min` and `time` accept raw `bytes` entries. -/
theorem goodEntry_not_bts {name : String} {vb : List Nat}
    (h : goodEntry name (.bts vb) = true) :
    name = "min" ∨ name = "time" := by
  unfold goodEntry at h
  split at h
  · simp [PyVal.isBool] at h
  split at h
  · dsimp only at h
    cases h
  split at h
  · simp [PyVal.isInt] at h
  split at h
  · dsimp only at h
    cases h
  split at h
  · rename_i idx hx
    have hmem := lookupA_mem hx
    rcases List.mem_cons.1 hmem with h1 | h1
    · exact .inl (congrArg Prod.fst h1)
    rcases List.mem_cons.1 h1 with h2 | h2
    · exact .inr (congrArg Prod.fst h2)
    · cases h2
  split at h
  · simp [PyVal.isInt] at h
  cases h

/-- C9 -- Round trip: a state read from a descriptor (`fromfd` with the
termios and winsize data the fd yields, with `VTIME`/`VMIN` slots holding
ints below 256 as `tcgetattr` produces), saved (`save` succeeding with dict
`d`) and loaded into a new instance (over a `/dev/tty` termios with the full
32 `cc` slots), compares equal attribute by attribute: every capability-set
attribute of the loaded instance equals the original's, including `min` and
`time` through the canonical-mode-dependent int-to-bytes conversion. -/
theorem save_load_round_trip (raw : TermiosData) (wsz : List PyVal)
    (st : SttyObj) (d : List (String × PyVal)) (dev : TermiosData)
    (hmt5 : ∃ k : Int, raw.cc.get? 5 = some (.int k) ∧ 0 ≤ k ∧ k < 256)
    (hmt6 : ∃ k : Int, raw.cc.get? 6 = some (.int k) ∧ 0 ≤ k ∧ k < 256)
    (hdev : dev.cc.length = 32)
    (hff : emptyStty.fromfd raw wsz = .ok st)
    (hsave : st.save = some d) :
    ∃ st2, emptyStty.load dev d = .ok st2 ∧
      ∀ name ∈ _available, lookupA st2.cache name = lookupA st.cache name := by
  obtain ⟨hcg, ⟨kmin, hkm0, hkm256, hmin⟩, ⟨ktime, hkt0, hkt256, htime⟩⟩ :=
    fromfd_facts emptyStty raw wsz st hmt5 hmt6 hff
  have hcg2 : ∀ p ∈ st.cache, goodEntry p.1 p.2 = true := by
    intro p hp
    rcases hcg p hp with h | h
    · cases h
    · exact h
  unfold SttyObj.save SttyObj.get at hsave
  have hdkeys : d.map Prod.fst = _available := getGo_keys _ _ _ hsave
  have hdvals : ∀ p ∈ d, lookupA st.cache p.1 = some p.2 := getGo_vals _ _ _ hsave
  have hdgood : ∀ p ∈ d, goodEntry p.1 p.2 = true :=
    fun p hp => hcg2 p (lookupA_mem (hdvals p hp))
  have hfilt : _available.filter (fun k => !((d.map Prod.fst).contains k)) = [] := by
    rw [hdkeys]
    decide
  have hvminI : lookupA d "min" = some (.int kmin) := by
    obtain ⟨vm, hvm⟩ := lookupA_isSome_of_mem_keys
      (show "min" ∈ d.map Prod.fst by rw [hdkeys]; decide)
    have h2 := hdvals _ (lookupA_mem hvm)
    dsimp only at h2
    rw [hmin] at h2
    injection h2 with h2
    rw [hvm, ← h2]
  have hvtimeI : lookupA d "time" = some (.int ktime) := by
    obtain ⟨vt, hvt⟩ := lookupA_isSome_of_mem_keys
      (show "time" ∈ d.map Prod.fst by rw [hdkeys]; decide)
    have h2 := hdvals _ (lookupA_mem hvt)
    dsimp only at h2
    rw [htime] at h2
    injection h2 with h2
    rw [hvt, ← h2]
  have hshapeL : stShape ⟨some dev, some _default_winsize, emptyStty.cache⟩ = true := by
    unfold stShape
    dsimp only
    simp [hdev, _default_winsize]
  have hfinish : ∀ d2 : List (String × PyVal),
      convMinTime d = .ok d2 →
      d2.map Prod.fst = _available →
      (∀ p ∈ d2, goodEntry p.1 p.2 = true) →
      (∃ vm, lookupA d2 "min" = some vm ∧ expCache vm = .int kmin) →
      (∃ vt, lookupA d2 "time" = some vt ∧ expCache vt = .int ktime) →
      (∀ p ∈ d, p.1 ≠ "min" → p.1 ≠ "time" → p ∈ d2) →
      ∃ st2, emptyStty.load dev d = .ok st2 ∧
        ∀ name ∈ _available, lookupA st2.cache name = lookupA st.cache name := by
    intro d2 hc hk hg2 hmin2 htime2 hother
    have hd2nodup : (d2.map Prod.fst).Nodup := hk ▸ available_nodup
    have hfilt2 : (d2.map Prod.fst).filter (fun k => !(_available.contains k)) = [] := by
      rw [hk]
      decide
    obtain ⟨st2, hfold, _, hmem2, _⟩ :=
      setManyGo_good d2 ⟨some dev, some _default_winsize, emptyStty.cache⟩
        hshapeL hg2 hd2nodup
    have hload : emptyStty.load dev d = .ok st2 := by
      unfold SttyObj.load
      dsimp only
      rw [if_neg (fun hcon => hcon hfilt), hc]
      dsimp only
      unfold SttyObj.set
      rw [if_neg (fun hcon => hcon hfilt2)]
      exact hfold
    refine ⟨st2, hload, ?_⟩
    intro nm hnm
    obtain ⟨v, hv⟩ := lookupA_isSome_of_mem_keys
      (show nm ∈ d.map Prod.fst by rw [hdkeys]; exact hnm)
    rw [hdvals _ (lookupA_mem hv)]
    by_cases hm : nm = "min"
    · subst hm
      obtain ⟨vm, hvm2, hexp⟩ := hmin2
      have hveq : v = .int kmin := by
        rw [hv] at hvminI
        injection hvminI with h
      rw [hmem2 _ (lookupA_mem hvm2), hexp, hveq]
    by_cases ht : nm = "time"
    · subst ht
      obtain ⟨vt, hvt2, hexp⟩ := htime2
      have hveq : v = .int ktime := by
        rw [hv] at hvtimeI
        injection hvtimeI with h
      rw [hmem2 _ (lookupA_mem hvt2), hexp, hveq]
    have hpd2 : (nm, v) ∈ d2 := hother (nm, v) (lookupA_mem hv) hm ht
    rw [hmem2 _ hpd2]
    cases v with
    | bool b => rfl
    | int n => rfl
    | str s => rfl
    | bts vb =>
      rcases goodEntry_not_bts (hdgood _ (lookupA_mem hv)) with h | h
      · exact absurd h hm
      · exact absurd h ht
  obtain ⟨vic, hvic⟩ := lookupA_isSome_of_mem_keys
    (show "icanon" ∈ d.map Prod.fst by rw [hdkeys]; decide)
  have hicb : vic.isBool = true := by
    have hg := hdgood _ (lookupA_mem hvic)
    rwa [goodEntry_icanon] at hg
  cases vic with
  | int n => simp [PyVal.isBool] at hicb
  | str s => simp [PyVal.isBool] at hicb
  | bts l => simp [PyVal.isBool] at hicb
  | bool b =>
    cases b with
    | false =>
      have hconv : convMinTime d = .ok d := by
        unfold convMinTime
        rw [hvic]
        dsimp only
        rw [if_neg (show ¬ (PyVal.bool false).truthy = true from by decide)]
      exact hfinish d hconv hdkeys hdgood ⟨.int kmin, hvminI, rfl⟩
        ⟨.int ktime, hvtimeI, rfl⟩ (fun p hp _ _ => hp)
    | true =>
      have hmkeys : "min" ∈ d.map Prod.fst := by
        rw [hdkeys]
        decide
      have hd1keys : (updateAssoc d "min" (.bts [kmin.toNat])).map Prod.fst =
          d.map Prod.fst := updateAssoc_map_fst _ hmkeys
      have htkeys : "time" ∈ (updateAssoc d "min" (.bts [kmin.toNat])).map Prod.fst := by
        rw [hd1keys, hdkeys]
        decide
      have hconv1 : convEntry d "min" = .ok (updateAssoc d "min" (.bts [kmin.toNat])) := by
        unfold convEntry
        rw [hvminI]
        dsimp only
        unfold pyBytesOf
        dsimp only
        rw [if_pos ⟨hkm0, hkm256⟩]
      have hconv2 : convEntry (updateAssoc d "min" (.bts [kmin.toNat])) "time" =
          .ok (updateAssoc (updateAssoc d "min" (.bts [kmin.toNat])) "time"
            (.bts [ktime.toNat])) := by
        unfold convEntry
        rw [lookupA_updateAssoc_ne _ _ _ _ (by decide), hvtimeI]
        dsimp only
        unfold pyBytesOf
        dsimp only
        rw [if_pos ⟨hkt0, hkt256⟩]
      have hconv : convMinTime d = .ok (updateAssoc (updateAssoc d "min"
          (.bts [kmin.toNat])) "time" (.bts [ktime.toNat])) := by
        unfold convMinTime
        rw [hvic]
        dsimp only
        rw [hconv1]
        dsimp only
        exact hconv2
      refine hfinish _ hconv ?_ ?_ ?_ ?_ ?_
      · rw [updateAssoc_map_fst _ htkeys, hd1keys, hdkeys]
      · intro p hp
        rcases mem_updateAssoc hp with h | h
        · rw [h]
          exact goodEntry_time_bts _
        rcases mem_updateAssoc h with h | h
        · rw [h]
          exact goodEntry_min_bts _
        · exact hdgood p h
      · refine ⟨.bts [kmin.toNat], ?_, ?_⟩
        · rw [lookupA_updateAssoc_ne _ _ _ _ (by decide),
            lookupA_updateAssoc_self]
        · simp [expCache, Int.toNat_of_nonneg hkm0]
      · refine ⟨.bts [ktime.toNat], ?_, ?_⟩
        · rw [lookupA_updateAssoc_self]
        · simp [expCache, Int.toNat_of_nonneg hkt0]
      · intro p hp h1 h2
        exact mem_updateAssoc_of_ne (mem_updateAssoc_of_ne hp h1) h2

set_option maxRecDepth 100000 in
set_option maxHeartbeats 1000000 in
/-- C9 (witness) -- the round trip at the concrete descriptor state. -/
theorem save_load_round_trip_witness :
    ∃ st2, emptyStty.load rawC dC = .ok st2 ∧
      ∀ name ∈ _available, lookupA st2.cache name = lookupA stC.cache name :=
  save_load_round_trip rawC wszC stC dC rawC
    ⟨0, by decide, by decide, by decide⟩
    ⟨1, by decide, by decide, by decide⟩
    (by decide) (by rfl) (by rfl)
